import Mathlib

/-!
Verification development for the `cicero-core` template compiler
(`packages/cicero-core/src/parsermanager.js`) and its companion classes
(`TemplateInstance`, `Template`).  The JavaScript sources are shallowly
embedded as Lean definitions: JS objects become structures, thrown
exceptions become `Except` errors, and the recursive grammar compiler
`buildGrammarRules` becomes a fuel-indexed recursive function (the fuel
only bounds recursion depth; every theorem either supplies enough fuel or
is conditional on a successful run).  External collaborators that are not
part of this repository (nearley, uuid, crypto, the markdown transformers
and the format sub-parsers) are modelled as explicit function parameters.
-/

namespace Cicero

/-- A lexer token as produced by the moo/nearley template tokenizer: the
matched text plus its source line and column. -/
structure Token where
  value : String
  line : Nat
  col : Nat

/-- The annotated-template AST node (`element.type` tags in
`parsermanager.js`).  Nested templates (`element.template.data`) are lists
whose entries may be `null` in JS, hence `List (Option TElement)`. -/
inductive TElement where
  | chunk (value : String)
  | lastChunk (value : String)
  | binding (fieldName : Token)
  | formattedBinding (fieldName : Token) (format : Option Token)
  | ifBinding (fieldName : Token) (stringIf : Token)
  | ifElseBinding (fieldName : Token) (stringIf : Token) (stringElse : Token)
  | clauseBinding (fieldName : Token) (template : List (Option TElement))
  | withBinding (fieldName : Token) (template : List (Option TElement))
  | uListBinding (fieldName : Token) (template : List (Option TElement))
  | oListBinding (fieldName : Token) (template : List (Option TElement))
  | joinBinding (fieldName : Token) (separator : String) (template : List (Option TElement))
  | expr (value : String)

/-- `ast.data`: the element list of one nesting level of the template. -/
abbrev TAst := List (Option TElement)

/-- The JS `element.type` discriminator string. -/
def elementTypeName : TElement → String
  | .chunk _ => "Chunk"
  | .lastChunk _ => "LastChunk"
  | .binding _ => "Binding"
  | .formattedBinding _ _ => "FormattedBinding"
  | .ifBinding _ _ => "IfBinding"
  | .ifElseBinding _ _ _ => "IfElseBinding"
  | .clauseBinding _ _ => "ClauseBinding"
  | .withBinding _ _ => "WithBinding"
  | .uListBinding _ _ => "UListBinding"
  | .oListBinding _ _ => "OListBinding"
  | .joinBinding _ _ _ => "JoinBinding"
  | .expr _ => "Expr"

/-- `element.fieldName` (absent on chunks and expressions). -/
def elementFieldName : TElement → Option Token
  | .binding f => some f
  | .formattedBinding f _ => some f
  | .ifBinding f _ => some f
  | .ifElseBinding f _ _ => some f
  | .clauseBinding f _ => some f
  | .withBinding f _ => some f
  | .uListBinding f _ => some f
  | .oListBinding f _ => some f
  | .joinBinding f _ _ => some f
  | _ => none

/-- `element.value` (present on chunks and expressions only). -/
def elementValue : TElement → Option String
  | .chunk v => some v
  | .lastChunk v => some v
  | .expr v => some v
  | _ => none

/-- A schema property of the template model, as consumed read-only from
concerto (`getName/getType/getFullyQualifiedTypeName/isArray/isOptional`,
and `instanceof RelationshipDeclaration`). -/
structure SchemaProperty where
  name : String
  propType : String
  fqTypeName : String
  isArray : Bool
  isOptional : Bool
  isRelationship : Bool
deriving Repr, DecidableEq

/-- The template model: a concerto class declaration
(`getFullyQualifiedName/getProperties/getIdentifierFieldName/getProperty`). -/
structure TemplateModel where
  fqn : String
  properties : List SchemaProperty
  identifierFieldName : Option String
deriving Repr, DecidableEq

/-- `templateModel.getProperty(name)`: the declared property of that name,
if any. -/
def TemplateModel.getDeclaredProperty (m : TemplateModel) (n : String) : Option SchemaProperty :=
  m.properties.find? (fun p => p.name == n)

/-- The `fileLocation` payload of a `TemplateException`
(`_throwTemplateExceptionForElement` builds `start`/`end` out of the
field-name token). -/
structure FileLocation where
  startLine : Nat
  startColumn : Nat
  endLine : Nat
  endColumn : Nat
deriving Repr, DecidableEq

/-- Errors thrown during grammar compilation: a `TemplateException`
(message, file location, file name) or a plain JS `Error` with only a
message. -/
inductive CompileError where
  | templateException (message : String) (fileLocation : FileLocation) (fileName : String)
  | generic (message : String)
deriving Repr, DecidableEq

/-- `ParserManager._throwTemplateExceptionForElement`: packages a message
with the source line/column of the element's field-name token.  `value` is
the element's `value` field; JS substitutes a single space when it is
absent or empty (`element.value ? element.value : ' '`). -/
def throwTemplateExceptionForElement (message : String) (fieldName : Token)
    (value : Option String) : CompileError :=
  let column := fieldName.col
  let line := fieldName.line
  let token := if (value.getD "").isEmpty then " " else value.getD ""
  let endColumn := column + token.length
  .templateException message ⟨line, column, line, endColumn⟩ "text/grammar.tem.md"

/-- `ParserManager.getProperty`: looks up the element's field name on the
model and throws a `TemplateException` naming the missing property and the
model's fully-qualified name when it is not declared. -/
def getPropertyOfElement (templateModel : TemplateModel) (fieldName : Token)
    (value : Option String) : Except CompileError SchemaProperty :=
  match templateModel.getDeclaredProperty fieldName.value with
  | some property => .ok property
  | none => .error (throwTemplateExceptionForElement
      ("Template references a property '" ++ fieldName.value ++
       "' that is not declared in the template model '" ++ templateModel.fqn ++ "'")
      fieldName value)

/-- The element types whose processing in `buildGrammarRules` resolves the
bound field through `ParserManager.getProperty` (the `IfBinding`,
`IfElseBinding` and `handleBinding` cases of the dispatch switch). -/
def isGetPropertyBinding : TElement → Bool
  | .binding _ => true
  | .formattedBinding _ _ => true
  | .ifBinding _ _ => true
  | .ifElseBinding _ _ _ => true
  | .clauseBinding _ _ => true
  | .withBinding _ _ => true
  | .uListBinding _ _ => true
  | .oListBinding _ _ => true
  | .joinBinding _ _ _ => true
  | _ => false

/-- The `TemplateException` raised for a binding to an undeclared property:
the message names the field and the model's fully-qualified name, and the
location is the field-name token's line/column (the end column is
`col + 1` because binding elements carry no `value`, so the one-character
placeholder token is used). -/
def undeclaredPropertyError (m : TemplateModel) (tok : Token) : CompileError :=
  .templateException
    ("Template references a property '" ++ tok.value ++
     "' that is not declared in the template model '" ++ m.fqn ++ "'")
    ⟨tok.line, tok.col, tok.line, tok.col + 1⟩ "text/grammar.tem.md"

/-- The `TemplateException` raised when an `IfBinding`/`IfElseBinding` is
bound to a non-boolean property. -/
def nonBooleanIfError (tok : Token) (property : SchemaProperty) : CompileError :=
  .templateException
    ("An if block can only be used with a boolean property. Property " ++
     tok.value ++ " has type " ++ property.propType)
    ⟨tok.line, tok.col, tok.line, tok.col + 1⟩ "text/grammar.tem.md"

/-- The element types scanned by `findFirstBinding`. -/
def bindingTypeNames : List String :=
  ["Binding", "FormattedBinding", "IfBinding", "IfElseBinding", "UListBinding",
   "OListBinding", "JoinBinding", "ClauseBinding", "WithBinding"]

/-- The loop-body test of `findFirstBinding`: the element is non-null, of a
binding type, and its field name equals the property name. -/
def isBindingRef (propertyName : String) : Option TElement → Bool
  | none => false
  | some e =>
    bindingTypeNames.contains (elementTypeName e) &&
    (match elementFieldName e with
     | some t => t.value == propertyName
     | none => false)

/-- Index-tracking loop of `findFirstBinding`. -/
def findFirstBindingFrom (propertyName : String) : TAst → Nat → Int
  | [], _ => -1
  | oe :: rest, n =>
    if isBindingRef propertyName oe then (n : Int)
    else findFirstBindingFrom propertyName rest (n + 1)

/-- `ParserManager.findFirstBinding`: the index of the first element whose
binding references the property, or `-1`. -/
def findFirstBinding (propertyName : String) (elements : TAst) : Int :=
  findFirstBindingFrom propertyName elements 0

/-- The parse-result count check in `ParserManager.buildGrammar` (lines
126–130): after feeding the templatized grammar to the nearley parser for
the template DSL, any result count other than exactly one is rejected by
throwing `new Error('Ambiguous parse!')`, and otherwise `results[0]` is
used as the template AST. -/
def checkParseResults {α : Type} (results : List α) : Except String α :=
  if h : results.length = 1 then
    .ok (results.get ⟨0, by omega⟩)
  else
    .error "Ambiguous parse!"

/-- First escaping pass of `cleanChunk`: `input.replace(/\n/gm, '\\n')`. -/
def escapeNewline (c : Char) : List Char :=
  if c = '\n' then ['\\', 'n'] else [c]

/-- Second escaping pass of `cleanChunk`: `text.replace(/"/gm, '\\"')`. -/
def escapeQuote (c : Char) : List Char :=
  if c = '"' then ['\\', '"'] else [c]

/-- `ParserManager.cleanChunk`: escapes newlines and double quotes, then
wraps the text in double quotes to form a grammar string literal. -/
def cleanChunk (input : String) : String :=
  let text := (input.data.flatMap escapeNewline).flatMap escapeQuote
  ⟨'"' :: text ++ ['"']⟩

/-- Escape decoding of the grammar reader for quoted literals (nearley
string literals use JSON-style escapes). -/
def decodeEscape : Char → Option Char
  | 'n' => some '\n'
  | 'r' => some '\r'
  | 't' => some '\t'
  | '"' => some '"'
  | '\\' => some '\\'
  | _ => none

/-- Scans the characters after an opening quote: returns the decoded
literal contents and the characters remaining after the closing quote, or
`none` for a malformed literal. -/
def scanLiteral : List Char → Option (List Char × List Char)
  | [] => none
  | c :: rest =>
    if c = '"' then some ([], rest)
    else if c = '\\' then
      match rest with
      | [] => none
      | e :: rest2 =>
        match decodeEscape e with
        | none => none
        | some dc =>
          match scanLiteral rest2 with
          | none => none
          | some (content, rem) => some (dc :: content, rem)
    else
      match scanLiteral rest with
      | none => none
      | some (content, rem) => some (c :: content, rem)

/-- Re-parses a generated quoted grammar literal: an opening quote, escaped
contents, a closing quote, and nothing after it. -/
def parseQuotedLiteral (s : String) : Option String :=
  match s.data with
  | '"' :: rest =>
    match scanLiteral rest with
    | some (content, []) => some ⟨content⟩
    | _ => none
  | _ => none

/-- One named grammar rule accumulated in `parts.modelRules`. -/
structure GrammarRule where
  pfx : String
  symbols : List String
deriving Repr, DecidableEq

/-- The per-level container rule accumulated in `parts.textRules`
(`textRules` object in `buildGrammarRules`; `pfx` is its `prefix` field and
`cls` its `class` field). -/
structure TextRules where
  pfx : String
  symbols : List String
  cls : String
  identifier : Option String
  properties : List String
deriving Repr, DecidableEq

/-- A formatting rule returned by a format parser's `buildFormatRules`. -/
structure FormatRule where
  name : String
  tokens : String
  action : String
deriving Repr, DecidableEq

/-- The `parts` accumulator of `buildGrammar`/`buildGrammarRules`, plus the
`this.ergoExpression` flag that the `Expr` case sets on the manager. -/
structure Parts where
  textRules : List TextRules
  modelRules : List GrammarRule
  grammars : List String
  ergoExpression : Bool
deriving Repr, DecidableEq

/-- `parts.modelRules.push(r)`. -/
def pushModelRule (parts : Parts) (r : GrammarRule) : Parts :=
  { parts with modelRules := parts.modelRules ++ [r] }

/-- `formatParser.addGrammars(parts.grammars)`: adds the parser's support
grammars under their names (JS object keys, so existing names are kept). -/
def addGrammarNames (grammars : List String) (names : List String) : List String :=
  names.foldl (fun acc n => if acc.contains n then acc else acc ++ [n]) grammars

/-- Model of an external format sub-parser (`DateTimeFormatParser`,
`AmountFormatParser`, `MonetaryAmountFormatParser` live outside the
provided sources): the grammar names its `addGrammars` registers and its
`buildFormatRules` function. -/
structure FormatParserModel where
  grammarNames : List String
  buildFormatRules : String → List FormatRule

/-- External collaborators of `buildGrammarRules`, passed explicitly:
the `uuid.v4()` token injected for identifier fields, the introspector's
class lookup, and the three format sub-parsers. -/
structure Ctx where
  uuid : String
  introspector : String → Option TemplateModel
  dateTimeFormatParser : FormatParserModel
  amountFormatParser : FormatParserModel
  monetaryAmountFormatParser : FormatParserModel

/-- The filter applied to `ast.data` in `buildGrammarRules`:
`element && (element.type !== 'Chunk' || element.value.length > 0)`. -/
def elementKept : Option TElement → Bool
  | none => false
  | some e =>
    match e with
    | .chunk v => v.length > 0
    | _ => true

/-- The `rules` map of `buildGrammarRules`: one `{prefix}{index}` key per
kept element, in document order (JS object insertion order). -/
def mkRules (pfx : String) (ast : TAst) : List (String × TElement) :=
  ast.enum.filterMap (fun p =>
    match p.2 with
    | some e => if elementKept (some e) then some (pfx ++ toString p.1, e) else none
    | none => none)

/-- The `textRules.properties` loop: for each model property (with its
trailing-comma separator computed from its position among all properties),
bind it to the first matching element index when one exists. -/
def mkProperties (pfx : String) (ast : TAst) (templateModel : TemplateModel) : List String :=
  templateModel.properties.enum.filterMap (fun p =>
    let sep := if p.1 < templateModel.properties.length - 1 then "," else ""
    let bindingIndex := findFirstBinding p.2.name ast
    if bindingIndex ≠ -1 then
      some (p.2.name ++ " : " ++ pfx ++ toString bindingIndex ++ sep)
    else
      none)

/-- The complete `textRules` container object built at one nesting level of
`buildGrammarRules` (symbols, bound class, synthesized identifier binding,
and first-occurrence property bindings). -/
def mkTextRules (pfx : String) (ast : TAst) (templateModel : TemplateModel)
    (uuid : String) : TextRules :=
  { pfx := pfx
    symbols := (mkRules pfx ast).map Prod.fst
    cls := templateModel.fqn
    identifier := templateModel.identifierFieldName.map
      (fun id => id ++ " : \"" ++ uuid ++ "\"")
    properties := mkProperties pfx ast templateModel }

/-- `ParserManager.adjustListBlock`: prepends the separator to the leading
chunk of a list block, failing when the block does not start with text. -/
def adjustListBlock (x : TAst) (separator : String) : Except CompileError TAst :=
  match x with
  | some (.chunk v) :: rest => .ok (some (.chunk (separator ++ v)) :: rest)
  | _ => .error (.generic "List block in template should contain text")

/-- `element.format` of a `FormattedBinding`. -/
def elementFormat : TElement → Option Token
  | .formattedBinding _ f => f
  | _ => none

/-- The nested template of a clause/with/list binding. -/
def elementTemplate : TElement → Option TAst
  | .clauseBinding _ t => some t
  | .withBinding _ t => some t
  | .uListBinding _ t => some t
  | .oListBinding _ t => some t
  | .joinBinding _ _ t => some t
  | _ => none

/-- Whether the element is one of the three list bindings. -/
def isListBindingElement : TElement → Bool
  | .uListBinding _ _ => true
  | .oListBinding _ _ => true
  | .joinBinding _ _ _ => true
  | _ => false

/-- The list separator: caller-specified for `JoinBinding`, dash-bullet for
`UListBinding` and `"1. "` for `OListBinding`. -/
def listSeparator : TElement → String
  | .joinBinding _ sep _ => sep
  | .uListBinding _ _ => "-  "
  | _ => "1. "

/-- The default inferred action `'{% id %}'`. -/
def idActionString : String := "\x7b% id %\x7d"

/-- The optional-literal rule emitted for an `IfBinding`:
`"{stringIf}":? {% (d) => {return d[0] !== null;}%} # {fieldName}`. -/
def ifBindingSymbol (stringIf : String) (fieldName : String) : String :=
  "\"" ++ stringIf ++ "\":? \x7b% (d) => \x7breturn d[0] !== null;\x7d%\x7d # " ++ fieldName

/-- The two-literal choice rule emitted for an `IfElseBinding`. -/
def ifElseBindingSymbol (stringIf stringElse fieldName : String) : String :=
  "(\"" ++ stringIf ++ "\"|\"" ++ stringElse ++ "\") \x7b% (d) => \x7breturn d[0][0] === \"" ++
  stringIf ++ "\";\x7d%\x7d # " ++ fieldName

/-- The list-binding semantic action emitted by `handleBinding`:
the JS arrow function `([ {f}First, {f} ]) => { return [{f}First].concat({f}); }`
wrapped in `{% %}`. -/
def listBindingActionString (propertyName : String) : String :=
  "\n\x7b%\n  ([ " ++ propertyName ++ "First, " ++ propertyName ++ " ]) => \x7b\n    return [" ++
  propertyName ++ "First].concat(" ++ propertyName ++ ");\n\x7d\n%\x7d"

/-- Denotation of the `IfBinding` action `(d) => { return d[0] !== null; }`:
`d[0]` is the optional literal match (`null` when the literal was absent). -/
def ifBindingActionDenote {α : Type} (d : Option α) : Bool :=
  !d.isNone

/-- Denotation of the `IfElseBinding` action
`(d) => { return d[0][0] === stringIf; }`: `matched` is the literal that the
two-way choice consumed. -/
def ifElseBindingActionDenote (matched stringIf : String) : Bool :=
  matched == stringIf

/-- Denotation of the list-binding action
`([ first, rest ]) => { return [first].concat(rest); }`. -/
def listBindingActionDenote {α : Type} (first : α) (rest : List α) : List α :=
  [first] ++ rest

/-- The cardinality suffix of `handleBinding`: `':'` plus `'*'` for arrays
and `'?'` for optionals, normalized to the empty string when no flag is
set. -/
def suffixFor (property : SchemaProperty) : String :=
  let suffix := ":"
  let suffix := if property.isArray then suffix ++ "*" else suffix
  let suffix := if property.isOptional then suffix ++ "?" else suffix
  if suffix == ":" then "" else suffix

/-- The final `parts.modelRules.push` of `handleBinding`: list bindings
sequence the first-item sub-grammar before the rest sub-grammar, all other
bindings emit the type reference alone. -/
def finishBinding (parts : Parts) (element : TElement) (inputRule : String)
    (propertyName : String) (property : SchemaProperty) (type : String)
    (firstType : Option String) (action : String) : Parts :=
  let suffix := suffixFor property
  if isListBindingElement element then
    pushModelRule parts
      { pfx := inputRule,
        symbols := [firstType.getD "null" ++ " " ++ type ++ suffix ++ " " ++ action ++ " # " ++ propertyName] }
  else
    pushModelRule parts
      { pfx := inputRule,
        symbols := [type ++ suffix ++ " " ++ action ++ " # " ++ propertyName] }

/-- One iteration of the `formatRules.forEach` loop in `handleBinding`:
sets `type` to the format rule's name and pushes its rule unless a rule of
the same name already exists (format fragments are deduplicated by
name). -/
def formatRuleStep (propertyName format : String) (st : Parts × String)
    (formatRule : FormatRule) : Parts × String :=
  let ruleExists := st.1.modelRules.any (fun r => r.pfx == formatRule.name)
  let parts2 :=
    if ruleExists then st.1
    else pushModelRule st.1
      { pfx := formatRule.name,
        symbols := [formatRule.tokens ++ " " ++ formatRule.action ++ " # " ++ propertyName ++ " as " ++ format] }
  (parts2, formatRule.name)

/-- The format-parser/format-string selection at the top of the
`FormattedBinding`/`DateTime` branch of `handleBinding`: `DateTime` takes
the date-time parser (with the default format `"MM/DD/YYYY"` when the
element carries none), `Double` and `MonetaryAmount` take their parsers
with the element's format, and any other property type fails with the
unsupported-format `TemplateException`. -/
def pickFormatParser (ctx : Ctx) (property : SchemaProperty) (element : TElement)
    (fieldName : Token) : Except CompileError (FormatParserModel × String) :=
  if property.propType == "DateTime" then
    .ok (ctx.dateTimeFormatParser,
      match elementFormat element with
      | some t => t.value
      | none => "\"MM/DD/YYYY\"")
  else if property.propType == "Double" then
    match elementFormat element with
    | some t => .ok (ctx.amountFormatParser, t.value)
    | none => .error (.generic "TypeError: cannot read format")
  else if property.propType == "MonetaryAmount" then
    match elementFormat element with
    | some t => .ok (ctx.monetaryAmountFormatParser, t.value)
    | none => .error (.generic "TypeError: cannot read format")
  else
    .error (throwTemplateExceptionForElement
      ("Formatted types are not currently supported for " ++ property.propType ++ " properties.")
      fieldName (elementValue element))

/-- The `FormattedBinding`/`DateTime` branch of `handleBinding`: pick the
format parser for the property type (failing for unsupported types),
register its support grammars, and emit one rule per format rule unless a
rule of the same name already exists; returns the updated parts and the
final `type` (the last format rule's name). -/
def runFormattedBinding (ctx : Ctx) (parts : Parts) (property : SchemaProperty)
    (element : TElement) (fieldName : Token) (propertyName : String) :
    Except CompileError (Parts × String) :=
  (pickFormatParser ctx property element fieldName).map (fun pf =>
    let parts := { parts with grammars := addGrammarNames parts.grammars pf.1.grammarNames }
    (pf.1.buildFormatRules pf.2).foldl (formatRuleStep propertyName pf.2) (parts, property.propType))

mutual

/-- `ParserManager.buildGrammarRules`: registers the per-level container
rule (`textRules`) and then processes each kept element's rule in document
order.  The `Nat` argument is recursion fuel (`0` aborts with an
out-of-fuel error). -/
def buildGrammarRules (ctx : Ctx) : Nat → TAst → TemplateModel → String → Parts →
    Except CompileError Parts
  | 0, _, _, _, _ => .error (.generic "out of fuel")
  | fuel + 1, ast, templateModel, pfx, parts =>
    let rules := mkRules pfx ast
    let textRules := mkTextRules pfx ast templateModel ctx.uuid
    let parts := { parts with textRules := parts.textRules ++ [textRules] }
    processRules ctx fuel rules templateModel parts

/-- The `for (let rule in rules)` loop of `buildGrammarRules`. -/
def processRules (ctx : Ctx) : Nat → List (String × TElement) → TemplateModel → Parts →
    Except CompileError Parts
  | 0, _, _, _ => .error (.generic "out of fuel")
  | _ + 1, [], _, parts => .ok parts
  | fuel + 1, (rule, element) :: rest, templateModel, parts =>
    match processElement ctx fuel templateModel parts rule element with
    | .error e => .error e
    | .ok parts2 => processRules ctx fuel rest templateModel parts2

/-- The `switch (element.type)` dispatch of `buildGrammarRules`. -/
def processElement (ctx : Ctx) : Nat → TemplateModel → Parts → String → TElement →
    Except CompileError Parts
  | 0, _, _, _, _ => .error (.generic "out of fuel")
  | fuel + 1, templateModel, parts, rule, element =>
    match element with
    | .chunk v => .ok (pushModelRule parts { pfx := rule, symbols := [cleanChunk v] })
    | .lastChunk v => .ok (pushModelRule parts { pfx := rule, symbols := [cleanChunk v] })
    | .ifBinding fieldName stringIf =>
      (match getPropertyOfElement templateModel fieldName (elementValue element) with
       | .error err => .error err
       | .ok property =>
         if property.propType ≠ "Boolean" then
           .error (throwTemplateExceptionForElement
             ("An if block can only be used with a boolean property. Property " ++
              fieldName.value ++ " has type " ++ property.propType)
             fieldName (elementValue element))
         else
           .ok (pushModelRule parts
             { pfx := rule, symbols := [ifBindingSymbol stringIf.value fieldName.value] }))
    | .ifElseBinding fieldName stringIf stringElse =>
      (match getPropertyOfElement templateModel fieldName (elementValue element) with
       | .error err => .error err
       | .ok property =>
         if property.propType ≠ "Boolean" then
           .error (throwTemplateExceptionForElement
             ("An if block can only be used with a boolean property. Property " ++
              fieldName.value ++ " has type " ++ property.propType)
             fieldName (elementValue element))
         else
           .ok (pushModelRule parts
             { pfx := rule,
               symbols := [ifElseBindingSymbol stringIf.value stringElse.value fieldName.value] }))
    | .expr _ =>
      .ok (pushModelRule { parts with ergoExpression := true } { pfx := rule, symbols := ["Any"] })
    | .binding _ => handleBinding ctx fuel templateModel parts rule element
    | .formattedBinding _ _ => handleBinding ctx fuel templateModel parts rule element
    | .clauseBinding _ _ => handleBinding ctx fuel templateModel parts rule element
    | .withBinding _ _ => handleBinding ctx fuel templateModel parts rule element
    | .uListBinding _ _ => handleBinding ctx fuel templateModel parts rule element
    | .oListBinding _ _ => handleBinding ctx fuel templateModel parts rule element
    | .joinBinding _ _ _ => handleBinding ctx fuel templateModel parts rule element

/-- `ParserManager.handleBinding`: resolves the bound property, dispatches
on the binding kind (formatted, nested clause, list, plain/relationship)
and pushes the final rule for the binding. -/
def handleBinding (ctx : Ctx) : Nat → TemplateModel → Parts → String → TElement →
    Except CompileError Parts
  | 0, _, _, _, _ => .error (.generic "out of fuel")
  | fuel + 1, templateModel, parts, inputRule, element =>
    match elementFieldName element with
    | none => .error (.generic "TypeError: cannot read fieldName")
    | some fieldName =>
      let propertyName := fieldName.value
      match getPropertyOfElement templateModel fieldName (elementValue element) with
      | .error err => .error err
      | .ok property =>
        if elementTypeName element == "FormattedBinding" || property.propType == "DateTime" then
          match runFormattedBinding ctx parts property element fieldName propertyName with
          | .error err => .error err
          | .ok (parts2, type) =>
            .ok (finishBinding parts2 element inputRule propertyName property type none idActionString)
        else if elementTypeName element == "ClauseBinding" || elementTypeName element == "WithBinding" then
          match elementTemplate element with
          | none => .error (.generic "TypeError: cannot read template")
          | some nestedTemplate =>
            match ctx.introspector property.fqTypeName with
            | none => .error (.generic ("TypeNotFoundException: " ++ property.fqTypeName))
            | some nestedTemplateModel =>
              match buildGrammarRules ctx fuel nestedTemplate nestedTemplateModel propertyName parts with
              | .error err => .error err
              | .ok parts2 =>
                .ok (finishBinding parts2 element inputRule propertyName property
                  fieldName.value none idActionString)
        else if isListBindingElement element then
          match elementTemplate element with
          | none => .error (.generic "TypeError: cannot read template")
          | some tpl =>
            match ctx.introspector property.fqTypeName with
            | none => .error (.generic ("TypeNotFoundException: " ++ property.fqTypeName))
            | some nestedTemplateModel =>
              let separator := listSeparator element
              match (if elementTypeName element == "JoinBinding" then .ok tpl
                     else adjustListBlock tpl separator : Except CompileError TAst) with
              | .error err => .error err
              | .ok firstNestedTemplate =>
                match buildGrammarRules ctx fuel firstNestedTemplate nestedTemplateModel
                    (propertyName ++ "First") parts with
                | .error err => .error err
                | .ok partsA =>
                  match (if elementTypeName element == "JoinBinding" then adjustListBlock tpl separator
                         else adjustListBlock firstNestedTemplate "\n" : Except CompileError TAst) with
                  | .error err => .error err
                  | .ok nestedTemplate =>
                    match buildGrammarRules ctx fuel nestedTemplate nestedTemplateModel propertyName partsA with
                    | .error err => .error err
                    | .ok partsB =>
                      .ok (finishBinding partsB element inputRule propertyName property
                        fieldName.value (some (fieldName.value ++ "First"))
                        (listBindingActionString propertyName))
        else
          let type := if property.isRelationship then "String" else property.propType
          .ok (finishBinding parts element inputRule propertyName property type none idActionString)

end

/-! ### Template identity (`Template.getHash`, `toArchive`, `fromArchive`)

The `Template` class itself is not among the provided sources (only its
test suite is), so this part is modelled from the specification. -/

/-- Modelled from the spec: the components of a template covered by the
identity hash — schema model files, the templatized grammar source, the
logic scripts, the metadata, and the `logicOmitted` flag
(`setArchiveOmitsLogic`). -/
structure TemplateComponents where
  modelFiles : List String
  templatizedGrammar : Option String
  logic : List String
  name : String
  version : String
  description : String
  readme : Option String
  logicOmitted : Bool
deriving Repr, DecidableEq

/-- Modelled from the spec: the stable serialized form of the hashed
components other than the leading `logicOmitted` flag; when logic is
omitted an omission marker is hashed in place of the logic sources. -/
def templateHashRest (t : TemplateComponents) : String :=
  "|models:" ++ String.intercalate "," t.modelFiles ++
  "|grammar:" ++ t.templatizedGrammar.getD "" ++
  "|logic:" ++ (if t.logicOmitted then "<omitted>" else String.intercalate "," t.logic) ++
  "|name:" ++ t.name ++
  "|version:" ++ t.version ++
  "|description:" ++ t.description ++
  "|readme:" ++ t.readme.getD ""

/-- Modelled from the spec: `Template.getHash`, a deterministic digest over
the stable serialized components.  The external SHA-256 primitive is
modelled by an injective stand-in (the serialized form itself, prefixed
with the `logicOmitted` flag), which captures the spec's requirements of
determinism and sensitivity to each hashed component. -/
def Template.getHash (t : TemplateComponents) : String :=
  ⟨(if t.logicOmitted then '1' else '0') :: (templateHashRest t).data⟩

/-- Modelled from the spec: `Template.toArchive` packages the template's
components, omitting the logic sources when `logicOmitted` is set (the
text-only export) while recording the flag itself. -/
def Template.toArchive (t : TemplateComponents) : TemplateComponents :=
  { t with logic := if t.logicOmitted then [] else t.logic }

/-- Modelled from the spec: `Template.fromArchive` reconstructs a template
from the archived components. -/
def Template.fromArchive (a : TemplateComponents) : TemplateComponents := a

/-! ### ParserManager grammar state (`setGrammar`/`buildGrammar`/`getParser`) -/

/-- The grammar-related state of a `ParserManager` (`this.grammar` and
`this.grammarAst`, both `null` after the constructor).  `G` is the opaque
compiled-grammar form produced by the external nearley compiler. -/
structure PMGrammarState (G : Type) where
  grammar : Option String
  grammarAst : Option G
deriving DecidableEq

/-- A nearley parser instance: `new nearley.Parser(...)` allocates a fresh
object (modelled by an allocation counter) bound to the compiled
grammar. -/
structure NearleyParser (G : Type) where
  instanceId : Nat
  compiledGrammar : G
deriving DecidableEq

/-- The `ParserManager` constructor: `this.grammar = null;
this.grammarAst = null`. -/
def ParserManager.initialState {G : Type} : PMGrammarState G := ⟨none, none⟩

/-- `ParserManager.getParser`: throws when no grammar has been compiled,
otherwise constructs a fresh parser bound to the compiled grammar.  The
`alloc` counter models JS object allocation: each successful call returns
a parser with a fresh identity and the incremented counter. -/
def ParserManager.getParser {G : Type} (st : PMGrammarState G) (alloc : Nat) :
    Except String (NearleyParser G × Nat) :=
  match st.grammarAst with
  | none => .error "Must call setGrammar or buildGrammar before calling getParser"
  | some ast => .ok (⟨alloc, ast⟩, alloc + 1)

/-- `ParserManager.setGrammar`: compiles the grammar source
(`ParserManager.compileGrammar`, i.e. the external nearley compiler passed
here as `compileGrammar`) and stores both the compiled form and the
source; a compile failure propagates and leaves the state unchanged. -/
def ParserManager.setGrammar {G : Type} (compileGrammar : String → Except String G)
    (st : PMGrammarState G) (grammar : String) : Except String (PMGrammarState G) :=
  match compileGrammar grammar with
  | .error e => .error e
  | .ok ast => .ok { st with grammarAst := some ast, grammar := some grammar }

/-- `ParserManager.buildGrammar` as a state transition: the pipeline
(markdown roundtrip, template-DSL parse, `buildGrammarRules`, nunjucks
rendering) producing the combined grammar source is abstracted as
`combine`; on success `buildGrammar` ends by calling `setGrammar`. -/
def ParserManager.buildGrammarState {G : Type} (compileGrammar : String → Except String G)
    (combine : String → Except String String) (st : PMGrammarState G)
    (templatizedGrammar : String) : Except String (PMGrammarState G) :=
  match combine templatizedGrammar with
  | .error e => .error e
  | .ok combined => ParserManager.setGrammar compileGrammar st combined

/-- A call made on a `ParserManager` instance. -/
inductive PMOp where
  | setGrammarCall (grammar : String)
  | buildGrammarCall (templatizedGrammar : String)
  | getParserCall
deriving Repr, DecidableEq

/-- Applies one call to the manager state and allocation counter; a call
that throws leaves the grammar state unchanged (the exception propagates
to the caller before any assignment). -/
def applyPMOp {G : Type} (compileGrammar : String → Except String G)
    (combine : String → Except String String) :
    PMGrammarState G × Nat → PMOp → PMGrammarState G × Nat
  | (st, alloc), .setGrammarCall g =>
    (match ParserManager.setGrammar compileGrammar st g with
     | .ok st2 => (st2, alloc)
     | .error _ => (st, alloc))
  | (st, alloc), .buildGrammarCall tg =>
    (match ParserManager.buildGrammarState compileGrammar combine st tg with
     | .ok st2 => (st2, alloc)
     | .error _ => (st, alloc))
  | (st, alloc), .getParserCall =>
    (match ParserManager.getParser st alloc with
     | .ok (_, alloc2) => (st, alloc2)
     | .error _ => (st, alloc))

/-- Runs a sequence of calls from a given state. -/
def runPMOps {G : Type} (compileGrammar : String → Except String G)
    (combine : String → Except String String) (ops : List PMOp)
    (init : PMGrammarState G × Nat) : PMGrammarState G × Nat :=
  ops.foldl (applyPMOp compileGrammar combine) init

/-- Whether a call is a `setGrammar`/`buildGrammar` that succeeds (success
of these calls does not depend on the current state). -/
def pmOpSetsGrammar {G : Type} (compileGrammar : String → Except String G)
    (combine : String → Except String String) : PMOp → Bool
  | .setGrammarCall g => (compileGrammar g).isOk
  | .buildGrammarCall tg =>
    (match combine tg with
     | .ok c => (compileGrammar c).isOk
     | .error _ => false)
  | .getParserCall => false

/-! ### TemplateInstance (`draft`, `formatCiceroMark`, `getIdentifier`) -/

/-- The options object accepted by `draft`/`formatCiceroMark`
(`options.format` and `options.unquoteVariables`). -/
structure DraftFormatOptions where
  format : Option String
  unquoteVariables : Bool
deriving Repr, DecidableEq

/-- The external markdown transformers used by `formatCiceroMark`
(`CiceroMarkTransformer`, `HtmlTransformer`, `SlateTransformer`), over an
opaque CiceroMark DOM type `CM`. -/
structure MarkTransformers (CM HTML SLATE : Type) where
  unquote : CM → CM
  toCiceroMarkUnwrapped : CM → CM
  toMarkdownCicero : CM → String
  toHtml : CM → HTML
  fromCiceroMark : CM → SLATE

/-- The value returned by `formatCiceroMark`: markdown text (default), the
parsed CiceroMark DOM passthrough, HTML, or the Slate DOM. -/
inductive DraftOutput (CM HTML SLATE : Type) where
  | markdown (text : String)
  | ciceromarkParsed (dom : CM)
  | html (page : HTML)
  | slate (dom : SLATE)
deriving DecidableEq

/-- `TemplateInstance.formatCiceroMark`: renders the parsed CiceroMark DOM
according to `options.format`.  In JS `const format = options ?
options.format : null; if (!format) ...`, so both an absent format and the
empty string select the default markdown rendering. -/
def formatCiceroMark {CM HTML SLATE : Type} (tr : MarkTransformers CM HTML SLATE)
    (ciceroMarkParsed : CM) (options : Option DraftFormatOptions) :
    Except String (DraftOutput CM HTML SLATE) :=
  let format : Option String :=
    match options with
    | some o => o.format
    | none => none
  let unquoteRequested : Bool :=
    match options with
    | some o => o.unquoteVariables
    | none => false
  if format = none ∨ format = some "" then
    let cm := if unquoteRequested then tr.unquote ciceroMarkParsed else ciceroMarkParsed
    let ciceroMark := tr.toCiceroMarkUnwrapped cm
    .ok (.markdown (tr.toMarkdownCicero ciceroMark))
  else if format = some "ciceromark_parsed" then
    .ok (.ciceromarkParsed ciceroMarkParsed)
  else if format = some "html" then
    let cm := if unquoteRequested then tr.unquote ciceroMarkParsed else ciceroMarkParsed
    .ok (.html (tr.toHtml cm))
  else if format = some "slate" then
    let cm := if unquoteRequested then tr.unquote ciceroMarkParsed else ciceroMarkParsed
    .ok (.slate (tr.fromCiceroMark cm))
  else
    .error ("Unsupported format: " ++ format.getD "")

/-- The data slots of a `TemplateInstance` (`this.data` and
`this.concertoData`, both `null` until `setData`/`parse` succeeds, then
both set together). -/
structure InstanceData (D R : Type) where
  data : Option D
  concertoData : Option R
deriving DecidableEq

/-- `TemplateInstance.draft`: fails when no data has been set, otherwise
drafts the CiceroMark DOM from the stored data (the external
`TemplateMarkTransformer.draftCiceroMark`, abstracted as
`draftCiceroMark`) and renders it with `formatCiceroMark`. -/
def TemplateInstance.draft {CM HTML SLATE D R : Type}
    (tr : MarkTransformers CM HTML SLATE) (draftCiceroMark : Option D → CM)
    (st : InstanceData D R) (options : Option DraftFormatOptions) :
    Except String (DraftOutput CM HTML SLATE) :=
  match st.concertoData with
  | none => .error "Data has not been set. Call setData or parse before calling this method."
  | some _ => formatCiceroMark tr (draftCiceroMark st.data) options

/-- `TemplateInstance.getIdentifier`: the owning template's identifier,
extended with `'-' ++ sha256hex(JSON.stringify(data))` when data has been
set.  The external `crypto` SHA-256 hex digest and `JSON.stringify` are
abstracted as function parameters. -/
def TemplateInstance.getIdentifier {D : Type} (sha256hex : String → String)
    (jsonStringify : D → String) (templateIdentifier : String)
    (data : Option D) : String :=
  let hash :=
    match data with
    | some d => "-" ++ sha256hex (jsonStringify d)
    | none => ""
  templateIdentifier ++ hash

/-! ### Concrete fixtures used by the witness theorems -/

/-- A context with a trivial introspector and empty format parsers. -/
def testCtx : Ctx :=
  { uuid := "UUID-1",
    introspector := fun _ => none,
    dateTimeFormatParser := ⟨[], fun _ => []⟩,
    amountFormatParser := ⟨[], fun _ => []⟩,
    monetaryAmountFormatParser := ⟨[], fun _ => []⟩ }

/-- A small template model with a boolean, a numeric and a synthesized
(never bound) property. -/
def testModel : TemplateModel :=
  { fqn := "test.TestClause",
    properties := [
      { name := "forceMajeure", propType := "Boolean", fqTypeName := "Boolean",
        isArray := false, isOptional := false, isRelationship := false },
      { name := "amount", propType := "Double", fqTypeName := "Double",
        isArray := false, isOptional := false, isRelationship := false },
      { name := "transactionId", propType := "String", fqTypeName := "String",
        isArray := false, isOptional := false, isRelationship := false }],
    identifierFieldName := none }

/-- `"Force Majeure: " forceMajeure " Amount: " amount` as an annotated
AST. -/
def testAst : TAst :=
  [some (.chunk "Force Majeure: "),
   some (.binding ⟨"forceMajeure", 1, 16⟩),
   some (.chunk " Amount: "),
   some (.binding ⟨"amount", 1, 40⟩)]

/-- The empty accumulator. -/
def emptyParts : Parts := ⟨[], [], [], false⟩

/-- The compilation result for `testAst` against `testModel`. -/
def testCompiledParts : Parts :=
  { textRules := [
      { pfx := "rule",
        symbols := ["rule0", "rule1", "rule2", "rule3"],
        cls := "test.TestClause",
        identifier := none,
        properties := ["forceMajeure : rule1,", "amount : rule3,"] }],
    modelRules := [
      { pfx := "rule0", symbols := ["\"Force Majeure: \""] },
      { pfx := "rule1", symbols := ["Boolean \x7b% id %\x7d # forceMajeure"] },
      { pfx := "rule2", symbols := ["\" Amount: \""] },
      { pfx := "rule3", symbols := ["Double \x7b% id %\x7d # amount"] }],
    grammars := [],
    ergoExpression := false }

/-- An AST that binds a property absent from `testModel`. -/
def testBadAst : TAst :=
  [some (.chunk "Hello "),
   some (.binding ⟨"missing", 3, 7⟩)]

/-- A nested item model for the list-binding fixture. -/
def testItemModel : TemplateModel :=
  { fqn := "test.Item",
    properties := [
      { name := "label", propType := "String", fqTypeName := "String",
        isArray := false, isOptional := false, isRelationship := false }],
    identifierFieldName := none }

/-- A context whose introspector resolves `test.Item`. -/
def testListCtx : Ctx :=
  { testCtx with introspector := fun n => if n == "test.Item" then some testItemModel else none }

/-- A model with a single list-typed property `items`. -/
def testListModel : TemplateModel :=
  { fqn := "test.ListClause",
    properties := [
      { name := "items", propType := "Item", fqTypeName := "test.Item",
        isArray := true, isOptional := false, isRelationship := false }],
    identifierFieldName := none }

/-- The `items` unordered-list binding over the nested template
`"x " label`. -/
def testListElement : TElement :=
  .uListBinding ⟨"items", 2, 1⟩
    [some (.chunk "x "), some (.binding ⟨"label", 2, 5⟩)]

/-- Identity transformers over string DOMs, used to evaluate
`formatCiceroMark` concretely. -/
def idMarkTransformers : MarkTransformers String String String :=
  ⟨id, id, id, id, id⟩

/-- The result of `handleBinding` on `testListElement`: a first-item
sub-grammar `itemsFirst` (leading `"-  "`), a rest sub-grammar `items`
(leading `"\n-  "`), and the final `itemsFirst items:*` rule with the
concatenating action. -/
def testListCompiledParts : Parts :=
  { textRules := [
      { pfx := "itemsFirst", symbols := ["itemsFirst0", "itemsFirst1"],
        cls := "test.Item", identifier := none, properties := ["label : itemsFirst1"] },
      { pfx := "items", symbols := ["items0", "items1"],
        cls := "test.Item", identifier := none, properties := ["label : items1"] }],
    modelRules := [
      { pfx := "itemsFirst0", symbols := ["\"-  x \""] },
      { pfx := "itemsFirst1", symbols := ["String \x7b% id %\x7d # label"] },
      { pfx := "items0", symbols := ["\"\\n-  x \""] },
      { pfx := "items1", symbols := ["String \x7b% id %\x7d # label"] },
      { pfx := "rule1",
        symbols := ["itemsFirst items:* \n\x7b%\n  ([ itemsFirst, items ]) => \x7b\n    return [itemsFirst].concat(items);\n\x7d\n%\x7d # items"] }],
    grammars := [],
    ergoExpression := false }

/-- The list-typed `items` property of `testListModel`. -/
def testItemsProperty : SchemaProperty :=
  { name := "items", propType := "Item", fqTypeName := "test.Item",
    isArray := true, isOptional := false, isRelationship := false }

/-! ## Theorems -/

/-- **C3** (counterexample): zero parse results and more than one parse
result are *not* surfaced as two distinct error kinds — `buildGrammar`
throws the very same `'Ambiguous parse!'` error for an empty result list
as for a two-element one. -/
theorem claim_C3_zero_results_same_error :
    checkParseResults ([] : List Nat) = .error "Ambiguous parse!" ∧
    checkParseResults ([0, 1] : List Nat) = .error "Ambiguous parse!" :=
  ⟨rfl, rfl⟩

/-- **C3** (amended): during `buildGrammar`, any parse whose result count
differs from exactly one is rejected — but with the single error
`'Ambiguous parse!'` for both the zero-result and the many-result case;
exactly one result is accepted and yields that unique result. -/
theorem claim_C3_parse_count_check :
    ∀ (α : Type) (results : List α),
      (results.length ≠ 1 → checkParseResults results = .error "Ambiguous parse!") ∧
      (∀ x, checkParseResults results = .ok x → results = [x]) ∧
      (results.length = 1 → ∃ x, checkParseResults results = .ok x ∧ results = [x]) := by
  intro α results
  refine ⟨?_, ?_, ?_⟩
  · intro h
    simp [checkParseResults, h]
  · intro x h
    by_cases hl : results.length = 1
    · obtain ⟨a, rfl⟩ := List.length_eq_one.mp hl
      simp [checkParseResults] at h
      simp [h]
    · simp [checkParseResults, hl] at h
  · intro hl
    obtain ⟨a, rfl⟩ := List.length_eq_one.mp hl
    exact ⟨a, by simp [checkParseResults], rfl⟩

/-- **C3** witness: the amended theorem applied to the empty result
list. -/
theorem claim_C3_parse_count_check_witness :
    (([] : List Nat).length ≠ 1) ∧
    checkParseResults ([] : List Nat) = .error "Ambiguous parse!" :=
  ⟨by decide, (claim_C3_parse_count_check Nat []).1 (by decide)⟩

/-- **C5**: the template identity hash is deterministic, a template whose
archive omits logic hashes differently from the same template with logic
included, and archiving then re-reading an archive preserves the hash
(the hash covers the `logicOmitted` flag and hashes an omission marker in
place of the logic when the flag is set). -/
theorem claim_C5_hash_determinism_sensitivity_roundtrip :
    ∀ t : TemplateComponents,
      Template.getHash t = Template.getHash t ∧
      Template.getHash { t with logicOmitted := true } ≠
        Template.getHash { t with logicOmitted := false } ∧
      Template.getHash (Template.fromArchive (Template.toArchive t)) = Template.getHash t := by
  intro t
  refine ⟨rfl, ?_, ?_⟩
  · intro h
    have hdata := congrArg String.data h
    simp [Template.getHash] at hdata
  · unfold Template.fromArchive Template.toArchive Template.getHash templateHashRest
    cases h : t.logicOmitted <;> simp [h]

/-- **C8** (counterexample): `cleanChunk` escapes only newlines and double
quotes, so a chunk consisting of a lone backslash produces the malformed
literal `"\"` whose re-parse fails instead of returning the original
text. -/
theorem claim_C8_backslash_not_roundtripped :
    cleanChunk "\\" = "\"\\\"" ∧ parseQuotedLiteral (cleanChunk "\\") = none ∧
    parseQuotedLiteral (cleanChunk "\\") ≠ some "\\" :=
  ⟨rfl, rfl, by decide⟩

/-- Helper for C8: scanning the escaped form of a backslash-free character
list followed by a closing quote recovers exactly that list. -/
theorem scanLiteral_of_escaped (l : List Char) (h : '\\' ∉ l) :
    scanLiteral ((l.flatMap escapeNewline).flatMap escapeQuote ++ ['"']) = some (l, []) := by
  induction l with
  | nil => simp [scanLiteral]
  | cons c rest ih =>
    have hc : c ≠ '\\' := fun hh => h (hh ▸ List.mem_cons_self c rest)
    have hrest : '\\' ∉ rest := fun hh => h (List.mem_cons_of_mem _ hh)
    have ih2 := ih hrest
    by_cases h1 : c = '\n'
    · subst h1
      have e1 : ((('\n' :: rest).flatMap escapeNewline).flatMap escapeQuote) ++ ['"'] =
          '\\' :: 'n' :: ((rest.flatMap escapeNewline).flatMap escapeQuote ++ ['"']) := by
        simp [escapeNewline, escapeQuote]
      rw [e1, scanLiteral]
      simp [decodeEscape, ih2]
    · by_cases h2 : c = '"'
      · subst h2
        have e1 : ((('"' :: rest).flatMap escapeNewline).flatMap escapeQuote) ++ ['"'] =
            '\\' :: '"' :: ((rest.flatMap escapeNewline).flatMap escapeQuote ++ ['"']) := by
          simp [escapeNewline, escapeQuote]
        rw [e1, scanLiteral]
        simp [decodeEscape, ih2]
      · have e1 : (((c :: rest).flatMap escapeNewline).flatMap escapeQuote) ++ ['"'] =
            c :: ((rest.flatMap escapeNewline).flatMap escapeQuote ++ ['"']) := by
          simp [escapeNewline, escapeQuote, h1, h2]
        rw [e1, scanLiteral.eq_def]
        simp [h1, h2, hc, ih2]

/-- **C8** (amended): for every chunk text containing no backslash, the
quoted grammar literal emitted by `cleanChunk` escapes every newline and
double quote such that re-parsing it yields the original text exactly. -/
theorem claim_C8_escape_roundtrip :
    ∀ s : String, '\\' ∉ s.data → parseQuotedLiteral (cleanChunk s) = some s := by
  intro s h
  show parseQuotedLiteral ⟨'"' :: ((s.data.flatMap escapeNewline).flatMap escapeQuote ++ ['"'])⟩ = some s
  unfold parseQuotedLiteral
  simp [scanLiteral_of_escaped s.data h]

/-- **C8** witness: a chunk with an embedded newline and double quotes
round-trips through `cleanChunk` and literal re-parsing. -/
theorem claim_C8_escape_roundtrip_witness :
    ('\\' ∉ ("line one\nsays \"hi\"" : String).data) ∧
    parseQuotedLiteral (cleanChunk "line one\nsays \"hi\"") = some "line one\nsays \"hi\"" :=
  ⟨by decide, claim_C8_escape_roundtrip "line one\nsays \"hi\"" (by decide)⟩

/-- **C9** (counterexample): an explicitly supplied `format` value that is
none of the supported selections does *not* always fail — the empty string
(falsy in JS) silently selects the default markdown rendering instead of
raising the unsupported-format error. -/
theorem claim_C9_empty_format_not_rejected :
    formatCiceroMark idMarkTransformers "dom" (some ⟨some "", false⟩) =
      .ok (.markdown "dom") ∧
    ("" : String) ≠ "ciceromark_parsed" ∧ ("" : String) ≠ "html" ∧ ("" : String) ≠ "slate" :=
  ⟨rfl, by decide, by decide, by decide⟩

/-- **C9** (amended): `draft` fails before rendering when data has never
been set; otherwise it renders via `formatCiceroMark`, which selects
normalized markdown when the format option is absent *or the empty
string*, the CiceroMark passthrough for `'ciceromark_parsed'`, HTML for
`'html'`, Slate for `'slate'`, and fails with `'Unsupported format: …'`
for every other non-empty format value. -/
theorem claim_C9_draft_format_selection :
    ∀ (CM HTML SLATE D R : Type) (tr : MarkTransformers CM HTML SLATE)
      (draftCiceroMark : Option D → CM) (st : InstanceData D R)
      (cm : CM) (options : Option DraftFormatOptions) (uq : Bool),
      (st.concertoData = none →
        TemplateInstance.draft tr draftCiceroMark st options =
          .error "Data has not been set. Call setData or parse before calling this method.") ∧
      (∀ r, st.concertoData = some r →
        TemplateInstance.draft tr draftCiceroMark st options =
          formatCiceroMark tr (draftCiceroMark st.data) options) ∧
      (formatCiceroMark tr cm none =
        .ok (.markdown (tr.toMarkdownCicero (tr.toCiceroMarkUnwrapped cm)))) ∧
      (∀ fmt, fmt = none ∨ fmt = some "" →
        formatCiceroMark tr cm (some ⟨fmt, uq⟩) =
          .ok (.markdown (tr.toMarkdownCicero
            (tr.toCiceroMarkUnwrapped (if uq then tr.unquote cm else cm))))) ∧
      (formatCiceroMark tr cm (some ⟨some "ciceromark_parsed", uq⟩) =
        .ok (.ciceromarkParsed cm)) ∧
      (formatCiceroMark tr cm (some ⟨some "html", uq⟩) =
        .ok (.html (tr.toHtml (if uq then tr.unquote cm else cm)))) ∧
      (formatCiceroMark tr cm (some ⟨some "slate", uq⟩) =
        .ok (.slate (tr.fromCiceroMark (if uq then tr.unquote cm else cm)))) ∧
      (∀ s, s ≠ "" → s ≠ "ciceromark_parsed" → s ≠ "html" → s ≠ "slate" →
        formatCiceroMark tr cm (some ⟨some s, uq⟩) = .error ("Unsupported format: " ++ s)) := by
  intro CM HTML SLATE D R tr draftCiceroMark st cm options uq
  refine ⟨?_, ?_, ?_, ?_, ?_, ?_, ?_, ?_⟩
  · intro h
    simp [TemplateInstance.draft, h]
  · intro r h
    simp [TemplateInstance.draft, h]
  · simp [formatCiceroMark]
  · rintro fmt (rfl | rfl) <;> simp [formatCiceroMark]
  · simp [formatCiceroMark]
  · simp [formatCiceroMark]
  · simp [formatCiceroMark]
  · intro s h0 h1 h2 h3
    simp [formatCiceroMark, h0, h1, h2, h3]

/-- **C9** witness: a concrete non-empty unsupported format value fails
with the unsupported-format error, on the identity transformers. -/
theorem claim_C9_draft_format_selection_witness :
    ("pdf" : String) ≠ "" ∧
    formatCiceroMark idMarkTransformers "dom" (some ⟨some "pdf", false⟩) =
      .error "Unsupported format: pdf" :=
  ⟨by decide,
   (claim_C9_draft_format_selection String String String Nat Nat idMarkTransformers
       (fun _ => "dom") ⟨none, none⟩ "dom" none false).2.2.2.2.2.2.2 "pdf"
     (by decide) (by decide) (by decide) (by decide)⟩

/-- **C10**: `getIdentifier` returns the template's identifier alone when
no data is set, and the identifier extended with `'-'` and the digest of
the serialized data when data is set; instances of the same template with
equal data JSON therefore share an identifier. -/
theorem claim_C10_get_identifier :
    ∀ (D : Type) (sha256hex : String → String) (jsonStringify : D → String)
      (templateIdentifier : String),
      TemplateInstance.getIdentifier sha256hex jsonStringify templateIdentifier none =
        templateIdentifier ∧
      (∀ d, TemplateInstance.getIdentifier sha256hex jsonStringify templateIdentifier (some d) =
        templateIdentifier ++ ("-" ++ sha256hex (jsonStringify d))) ∧
      (∀ d1 d2, jsonStringify d1 = jsonStringify d2 →
        TemplateInstance.getIdentifier sha256hex jsonStringify templateIdentifier (some d1) =
        TemplateInstance.getIdentifier sha256hex jsonStringify templateIdentifier (some d2)) := by
  intro D sha js tid
  refine ⟨?_, ?_, ?_⟩
  · simp [TemplateInstance.getIdentifier]
  · intro d
    simp [TemplateInstance.getIdentifier]
  · intro d1 d2 h
    simp [TemplateInstance.getIdentifier, h]

/-! ### Helper lemmas about the grammar compiler -/

/-- Pushing a model rule leaves the container rules untouched. -/
theorem pushModelRule_textRules (parts : Parts) (r : GrammarRule) :
    (pushModelRule parts r).textRules = parts.textRules := rfl

/-- The final push of `handleBinding` leaves the container rules
untouched. -/
theorem finishBinding_textRules (parts : Parts) (element : TElement) (inputRule : String)
    (propertyName : String) (property : SchemaProperty) (type : String)
    (firstType : Option String) (action : String) :
    (finishBinding parts element inputRule propertyName property type firstType action).textRules =
      parts.textRules := by
  unfold finishBinding
  split <;> rfl

/-- The format-rule loop leaves the container rules untouched. -/
theorem formatFold_textRules (propertyName format : String) :
    ∀ (l : List FormatRule) (st : Parts × String),
      ((l.foldl (formatRuleStep propertyName format) st).1).textRules = (st.1).textRules := by
  intro l
  induction l with
  | nil => intro st; rfl
  | cons fr rest ih =>
    intro st
    rw [List.foldl_cons, ih]
    simp only [formatRuleStep]
    split <;> rfl

/-- The formatted-binding branch leaves the container rules untouched. -/
theorem runFormattedBinding_textRules (ctx : Ctx) (parts : Parts)
    (property : SchemaProperty) (element : TElement) (fieldName : Token)
    (propertyName : String) (parts2 : Parts) (type : String)
    (h : runFormattedBinding ctx parts property element fieldName propertyName =
      .ok (parts2, type)) :
    parts2.textRules = parts.textRules := by
  unfold runFormattedBinding at h
  cases hp : pickFormatParser ctx property element fieldName with
  | error e =>
    rw [hp] at h
    simp [Except.map] at h
  | ok pf =>
    rw [hp] at h
    simp only [Except.map] at h
    have h3 := congrArg (fun q => (q.1).textRules) (Except.ok.inj h)
    simp only at h3
    rw [← h3]
    exact formatFold_textRules _ _ _ _

/-- Monotonicity: every phase of the compiler only appends to
`parts.textRules`. -/
theorem compile_textRules_mono (ctx : Ctx) : ∀ fuel : Nat,
    (∀ ast m pfx parts p', buildGrammarRules ctx fuel ast m pfx parts = .ok p' →
      parts.textRules <+: p'.textRules) ∧
    (∀ rs m parts p', processRules ctx fuel rs m parts = .ok p' →
      parts.textRules <+: p'.textRules) ∧
    (∀ m parts r e p', processElement ctx fuel m parts r e = .ok p' →
      parts.textRules <+: p'.textRules) ∧
    (∀ m parts r e p', handleBinding ctx fuel m parts r e = .ok p' →
      parts.textRules <+: p'.textRules) := by
  intro fuel
  induction fuel with
  | zero =>
    refine ⟨?_, ?_, ?_, ?_⟩ <;> intros <;>
      simp_all [buildGrammarRules, processRules, processElement, handleBinding]
  | succ n ih =>
    obtain ⟨ihB, ihR, ihE, ihH⟩ := ih
    refine ⟨?_, ?_, ?_, ?_⟩
    · intro ast m pfx parts p' h
      rw [buildGrammarRules] at h
      exact (List.prefix_append parts.textRules [mkTextRules pfx ast m ctx.uuid]).trans
        (ihR _ _ _ _ h)
    · intro rs m parts p' h
      cases rs with
      | nil =>
        rw [processRules] at h
        cases h
        exact List.prefix_rfl
      | cons re rest =>
        obtain ⟨rule, element⟩ := re
        rw [processRules] at h
        split at h
        · exact absurd h (by simp)
        · rename_i parts2 heq
          exact (ihE _ _ _ _ _ heq).trans (ihR _ _ _ _ h)
    · intro m parts r e p' h
      cases e with
      | chunk v =>
        simp only [processElement] at h
        cases h
        exact List.prefix_rfl
      | lastChunk v =>
        simp only [processElement] at h
        cases h
        exact List.prefix_rfl
      | ifBinding f sIf =>
        simp only [processElement] at h
        split at h
        · exact absurd h (by simp)
        · split at h
          · exact absurd h (by simp)
          · cases h
            exact List.prefix_rfl
      | ifElseBinding f sIf sElse =>
        simp only [processElement] at h
        split at h
        · exact absurd h (by simp)
        · split at h
          · exact absurd h (by simp)
          · cases h
            exact List.prefix_rfl
      | expr v =>
        simp only [processElement] at h
        cases h
        exact List.prefix_rfl
      | binding f => exact ihH _ _ _ _ _ (by simpa [processElement] using h)
      | formattedBinding f fmt => exact ihH _ _ _ _ _ (by simpa [processElement] using h)
      | clauseBinding f t => exact ihH _ _ _ _ _ (by simpa [processElement] using h)
      | withBinding f t => exact ihH _ _ _ _ _ (by simpa [processElement] using h)
      | uListBinding f t => exact ihH _ _ _ _ _ (by simpa [processElement] using h)
      | oListBinding f t => exact ihH _ _ _ _ _ (by simpa [processElement] using h)
      | joinBinding f sep t => exact ihH _ _ _ _ _ (by simpa [processElement] using h)
    · intro m parts r e p' h
      rw [handleBinding] at h
      split at h
      · exact absurd h (by simp)
      · rename_i f hf
        split at h
        · exact absurd h (by simp)
        · rename_i property hp
          split at h
          · -- formatted branch
            dsimp only at h
            split at h
            · exact absurd h (by simp)
            · rename_i parts2 ty heq
              cases h
              rw [finishBinding_textRules, runFormattedBinding_textRules _ _ _ _ _ _ _ _ heq]
          · split at h
            · -- clause/with branch
              split at h
              · exact absurd h (by simp)
              · rename_i nestedTemplate ht
                split at h
                · exact absurd h (by simp)
                · rename_i nestedModel hm
                  dsimp only at h
                  split at h
                  · exact absurd h (by simp)
                  · rename_i parts2 hb
                    cases h
                    rw [finishBinding_textRules]
                    exact ihB _ _ _ _ _ hb
            · split at h
              · -- list branch
                split at h
                · exact absurd h (by simp)
                · rename_i tpl ht
                  split at h
                  · exact absurd h (by simp)
                  · rename_i nestedModel hm
                    dsimp only at h
                    split at h
                    · exact absurd h (by simp)
                    · rename_i firstTpl hadj1
                      split at h
                      · exact absurd h (by simp)
                      · rename_i partsA hb1
                        split at h
                        · exact absurd h (by simp)
                        · rename_i restTpl hadj2
                          split at h
                          · exact absurd h (by simp)
                          · rename_i partsB hb2
                            cases h
                            rw [finishBinding_textRules]
                            exact (ihB _ _ _ _ _ hb1).trans (ihB _ _ _ _ _ hb2)
              · -- plain binding / relationship branch
                dsimp only at h
                cases h
                rw [finishBinding_textRules]

/-- Compiling one level appends exactly the level's container rule (then
possibly more, from nested levels). -/
theorem buildGrammarRules_textRules_structure (ctx : Ctx) (fuel : Nat) (ast : TAst)
    (m : TemplateModel) (pfx : String) (parts p' : Parts)
    (h : buildGrammarRules ctx fuel ast m pfx parts = .ok p') :
    ∃ rest, p'.textRules = parts.textRules ++ mkTextRules pfx ast m ctx.uuid :: rest := by
  cases fuel with
  | zero => simp [buildGrammarRules] at h
  | succ n =>
    rw [buildGrammarRules] at h
    obtain ⟨rest, hr⟩ := (compile_textRules_mono ctx n).2.1 _ _ _ _ h
    exact ⟨rest, by rw [← hr]; simp⟩

/-- `findFirstBinding`'s index-threading loop agrees with `List.findIdx?`
(with the same starting index). -/
theorem findFirstBindingFrom_eq_findIdx? (propertyName : String) :
    ∀ (l : TAst) (k : Nat),
      findFirstBindingFrom propertyName l k =
        (match List.findIdx? (isBindingRef propertyName) l k with
         | some n => (n : Int)
         | none => -1) := by
  intro l
  induction l with
  | nil =>
    intro k
    simp [findFirstBindingFrom, List.findIdx?_nil]
  | cons oe rest ih =>
    intro k
    simp only [findFirstBindingFrom, List.findIdx?_cons]
    by_cases hb : isBindingRef propertyName oe = true
    · simp [hb]
    · simp [hb, ih (k + 1)]

/-- `findFirstBinding` is `List.findIdx?` over `isBindingRef`, with `-1`
for "not found". -/
theorem findFirstBinding_eq_findIdx? (propertyName : String) (l : TAst) :
    findFirstBinding propertyName l =
      (match List.findIdx? (isBindingRef propertyName) l 0 with
       | some n => (n : Int)
       | none => -1) :=
  findFirstBindingFrom_eq_findIdx? propertyName l 0

/-- `List.findIdx?` finds a *first* match: the returned index holds a
match and every earlier index does not. -/
theorem findIdx?_first_spec {α : Type} (p : α → Bool) :
    ∀ (l : List α) (i n : Nat), List.findIdx? p l i = some n →
      i ≤ n ∧ (∃ a, l.get? (n - i) = some a ∧ p a = true) ∧
      ∀ k, k < n - i → ∀ b, l.get? k = some b → p b = false := by
  intro l
  induction l with
  | nil =>
    intro i n h
    simp [List.findIdx?_nil] at h
  | cons x xs ih =>
    intro i n h
    rw [List.findIdx?_cons] at h
    by_cases hx : p x = true
    · rw [if_pos hx] at h
      have hin : i = n := Option.some.inj h
      subst hin
      refine ⟨le_rfl, ⟨x, by simp, hx⟩, ?_⟩
      intro k hk
      omega
    · rw [if_neg hx] at h
      obtain ⟨hle, ⟨a, ha, hpa⟩, hmin⟩ := ih (i + 1) n h
      have hxf : p x = false := by simpa using hx
      refine ⟨by omega, ⟨a, ?_, hpa⟩, ?_⟩
      · have hni : n - i = (n - (i + 1)) + 1 := by omega
        rw [hni]
        simpa using ha
      · intro k hk b hb
        cases k with
        | zero =>
          simp at hb
          rw [← hb]
          exact hxf
        | succ j =>
          have hj : j < n - (i + 1) := by omega
          exact hmin j hj b (by simpa using hb)

/-- Length of an index-decorated guarded `filterMap` equals the length of
the corresponding `filter`. -/
theorem enumFrom_filterMap_length {α β : Type} (q : α → Prop) [DecidablePred q]
    (f : Nat → α → β) :
    ∀ (l : List α) (k : Nat),
      ((List.enumFrom k l).filterMap
        (fun p => if q p.2 then some (f p.1 p.2) else none)).length =
      (l.filter (fun a => decide (q a))).length := by
  intro l
  induction l with
  | nil => intro k; rfl
  | cons x xs ih =>
    intro k
    show (List.filterMap _ ((k, x) :: List.enumFrom (k + 1) xs)).length = _
    rw [List.filterMap_cons]
    by_cases hq : q x
    · simp only [if_pos hq]
      simp [List.filter_cons, hq, ih (k + 1)]
    · simp only [if_neg hq]
      simp [List.filter_cons, hq, ih (k + 1)]

/-- **C1**: when `buildGrammarRules` succeeds, the container rule it
registered for the level binds exactly the schema properties that have a
matching binding in the AST — each to the `{prefix}{index}` rule of the
*first* element (in document order) whose binding references the
property's name — and properties with no matching binding are simply left
out (there is no error path in the container-rule construction). -/
theorem claim_C1_container_binds_first_occurrence :
    ∀ (ctx : Ctx) (fuel : Nat) (ast : TAst) (m : TemplateModel) (pfx : String)
      (parts p' : Parts),
      buildGrammarRules ctx fuel ast m pfx parts = .ok p' →
      ∃ rest, p'.textRules = parts.textRules ++ mkTextRules pfx ast m ctx.uuid :: rest ∧
        (mkTextRules pfx ast m ctx.uuid).properties =
          m.properties.enum.filterMap (fun p =>
            match List.findIdx? (isBindingRef p.2.name) ast 0 with
            | some n => some (p.2.name ++ " : " ++ pfx ++ toString ((n : Nat) : Int) ++
                (if p.1 < m.properties.length - 1 then "," else ""))
            | none => none) ∧
        (mkTextRules pfx ast m ctx.uuid).properties.length =
          (m.properties.filter
            (fun property => decide (findFirstBinding property.name ast ≠ -1))).length ∧
        (∀ (pname : String) (n : Nat), findFirstBinding pname ast = (n : Int) →
          (∃ oe, ast.get? n = some oe ∧ isBindingRef pname oe = true) ∧
          ∀ k, k < n → ∀ oe, ast.get? k = some oe → isBindingRef pname oe = false) ∧
        (∀ pname : String, findFirstBinding pname ast = -1 ↔
          ∀ oe ∈ ast, isBindingRef pname oe = false) := by
  intro ctx fuel ast m pfx parts p' h
  obtain ⟨rest, hrest⟩ := buildGrammarRules_textRules_structure ctx fuel ast m pfx parts p' h
  refine ⟨rest, hrest, ?_, ?_, ?_, ?_⟩
  · show mkProperties pfx ast m = _
    unfold mkProperties
    have hfun : (fun (p : Nat × SchemaProperty) =>
        let sep := if p.1 < m.properties.length - 1 then "," else ""
        let bindingIndex := findFirstBinding p.2.name ast
        if bindingIndex ≠ -1 then
          some (p.2.name ++ " : " ++ pfx ++ toString bindingIndex ++ sep)
        else none) =
        (fun (p : Nat × SchemaProperty) =>
          match List.findIdx? (isBindingRef p.2.name) ast 0 with
          | some n => some (p.2.name ++ " : " ++ pfx ++ toString ((n : Nat) : Int) ++
              (if p.1 < m.properties.length - 1 then "," else ""))
          | none => none) := by
      funext p
      rw [findFirstBinding_eq_findIdx?]
      cases List.findIdx? (isBindingRef p.2.name) ast 0 with
      | none => simp
      | some n =>
        have : (n : Int) ≠ -1 := by omega
        simp [this]
    rw [hfun]
  · show (mkProperties pfx ast m).length = _
    unfold mkProperties
    exact enumFrom_filterMap_length
      (fun property => findFirstBinding property.name ast ≠ -1)
      (fun i property => property.name ++ " : " ++ pfx ++
        toString (findFirstBinding property.name ast) ++
        (if i < m.properties.length - 1 then "," else ""))
      m.properties 0
  · intro pname n hn
    rw [findFirstBinding_eq_findIdx?] at hn
    cases hidx : List.findIdx? (isBindingRef pname) ast 0 with
    | none =>
      rw [hidx] at hn
      dsimp only at hn
      exact absurd hn (by omega)
    | some j =>
      rw [hidx] at hn
      dsimp only at hn
      have hjn : j = n := by omega
      subst hjn
      obtain ⟨-, hex, hmin⟩ := findIdx?_first_spec (isBindingRef pname) ast 0 j hidx
      rw [Nat.sub_zero] at hex
      refine ⟨hex, ?_⟩
      intro k hk oe hoe
      exact hmin k (by omega) oe hoe
  · intro pname
    rw [findFirstBinding_eq_findIdx?]
    cases hidx : List.findIdx? (isBindingRef pname) ast 0 with
    | none =>
      dsimp only
      constructor
      · intro _
        exact List.findIdx?_eq_none_iff.mp hidx
      · intro _
        rfl
    | some n =>
      dsimp only
      constructor
      · intro hfalse
        exfalso
        have hgood : (n : Int) = -1 := hfalse
        have hnn := Int.natCast_nonneg n
        rw [hgood] at hnn
        norm_num at hnn
      · intro hall
        obtain ⟨-, ⟨a, ha, hpa⟩, -⟩ := findIdx?_first_spec (isBindingRef pname) ast 0 n hidx
        rw [Nat.sub_zero] at ha
        have hmem : a ∈ ast := List.get?_mem ha
        rw [hall a hmem] at hpa
        cases hpa

/-- **C1** witness: compiling the concrete two-binding template against
the three-property model (the third property, `transactionId`, has no
binding and is left unbound without error). -/
theorem claim_C1_container_binds_first_occurrence_witness :
    (buildGrammarRules testCtx 9 testAst testModel "rule" emptyParts = .ok testCompiledParts) ∧
    (∃ rest, testCompiledParts.textRules =
        emptyParts.textRules ++ mkTextRules "rule" testAst testModel testCtx.uuid :: rest ∧
      (mkTextRules "rule" testAst testModel testCtx.uuid).properties =
        testModel.properties.enum.filterMap (fun p =>
          match List.findIdx? (isBindingRef p.2.name) testAst 0 with
          | some n => some (p.2.name ++ " : " ++ "rule" ++ toString ((n : Nat) : Int) ++
              (if p.1 < testModel.properties.length - 1 then "," else ""))
          | none => none) ∧
      (mkTextRules "rule" testAst testModel testCtx.uuid).properties.length =
        (testModel.properties.filter
          (fun property => decide (findFirstBinding property.name testAst ≠ -1))).length ∧
      (∀ (pname : String) (n : Nat), findFirstBinding pname testAst = (n : Int) →
        (∃ oe, testAst.get? n = some oe ∧ isBindingRef pname oe = true) ∧
        ∀ k, k < n → ∀ oe, testAst.get? k = some oe → isBindingRef pname oe = false) ∧
      (∀ pname : String, findFirstBinding pname testAst = -1 ↔
        ∀ oe ∈ testAst, isBindingRef pname oe = false)) :=
  ⟨rfl, claim_C1_container_binds_first_occurrence testCtx 9 testAst testModel "rule"
    emptyParts testCompiledParts rfl⟩

/-- Binding elements always pass the chunk filter of `buildGrammarRules`. -/
theorem elementKept_of_getPropertyBinding (e : TElement)
    (hb : isGetPropertyBinding e = true) : elementKept (some e) = true := by
  cases e <;> simp_all [isGetPropertyBinding, elementKept]

/-- With at least two units of fuel, processing a binding element whose
field is not declared on the model produces exactly the undeclared-property
`TemplateException`. -/
theorem processElement_undeclared (ctx : Ctx) (m : TemplateModel) (parts : Parts)
    (rule : String) (e : TElement) (tok : Token) (g : Nat)
    (hb : isGetPropertyBinding e = true) (hf : elementFieldName e = some tok)
    (hnd : m.getDeclaredProperty tok.value = none) (hg : 2 ≤ g) :
    processElement ctx g m parts rule e = .error (undeclaredPropertyError m tok) := by
  obtain ⟨g2, rfl⟩ : ∃ g2, g = g2 + 2 := ⟨g - 2, by omega⟩
  have hsp : (" " : String).length = 1 := rfl
  have hemp : ("" : String).isEmpty = true := rfl
  cases e <;>
    simp_all [processElement, handleBinding, getPropertyOfElement, elementFieldName,
      elementValue, isGetPropertyBinding, throwTemplateExceptionForElement,
      undeclaredPropertyError]

/-- Processing a binding element whose field is not declared never
succeeds, whatever the fuel. -/
theorem processElement_undeclared_never_ok (ctx : Ctx) (m : TemplateModel)
    (parts : Parts) (rule : String) (e : TElement) (tok : Token)
    (hb : isGetPropertyBinding e = true) (hf : elementFieldName e = some tok)
    (hnd : m.getDeclaredProperty tok.value = none) :
    ∀ (g : Nat) (p' : Parts), processElement ctx g m parts rule e ≠ .ok p' := by
  intro g p'
  by_cases hg : 2 ≤ g
  · rw [processElement_undeclared ctx m parts rule e tok g hb hf hnd hg]
    simp
  · have : g = 0 ∨ g = 1 := by omega
    rcases this with rfl | rfl
    · simp [processElement]
    · cases e <;>
        simp_all [processElement, handleBinding, getPropertyOfElement,
          elementFieldName, elementValue, isGetPropertyBinding]

/-- A rule list containing an undeclared-field binding is never processed
to success. -/
theorem processRules_with_bad_never_ok (ctx : Ctx) (m : TemplateModel)
    (e : TElement) (tok : Token) (ruleName : String)
    (hb : isGetPropertyBinding e = true) (hf : elementFieldName e = some tok)
    (hnd : m.getDeclaredProperty tok.value = none) :
    ∀ (rs : List (String × TElement)) (fuel : Nat) (parts p' : Parts),
      (ruleName, e) ∈ rs → processRules ctx fuel rs m parts ≠ .ok p' := by
  intro rs
  induction rs with
  | nil =>
    intro fuel parts p' hm
    simp at hm
  | cons r0 rest ih =>
    intro fuel parts p' hm h
    cases fuel with
    | zero => simp [processRules] at h
    | succ n =>
      obtain ⟨rn, e0⟩ := r0
      rw [processRules] at h
      rcases List.mem_cons.mp hm with heq | hmem
      · injection heq with h1 h2
        subst h1
        subst h2
        split at h
        · exact absurd h (by simp)
        · rename_i parts2 hpe
          exact processElement_undeclared_never_ok ctx m parts ruleName e tok hb hf hnd
            n parts2 hpe
      · split at h
        · exact absurd h (by simp)
        · rename_i parts2 hpe
          exact ih n parts2 p' hmem h

/-- A kept element of the AST appears (with its generated rule key) in the
level's rule list. -/
theorem mem_mkRules_of_mem (pfx : String) (e : TElement)
    (hkept : elementKept (some e) = true) :
    ∀ (l : TAst) (k : Nat), some e ∈ l →
      ∃ s, (s, e) ∈ (List.enumFrom k l).filterMap (fun p =>
        match p.2 with
        | some e2 => if elementKept (some e2) then some (pfx ++ toString p.1, e2) else none
        | none => none) := by
  intro l
  induction l with
  | nil =>
    intro k hm
    simp at hm
  | cons oe rest ih =>
    intro k hm
    show ∃ s, (s, e) ∈ List.filterMap _ ((k, oe) :: List.enumFrom (k + 1) rest)
    rw [List.filterMap_cons]
    rcases List.mem_cons.mp hm with heq | hmem
    · subst heq
      refine ⟨pfx ++ toString k, ?_⟩
      simp [hkept]
    · obtain ⟨s, hs⟩ := ih (k + 1) hmem
      refine ⟨s, ?_⟩
      cases oe with
      | none => simpa using hs
      | some e2 =>
        by_cases hk2 : elementKept (some e2) = true
        · simp only [hk2, if_pos]
          exact List.mem_cons_of_mem _ hs
        · simp only [Bool.not_eq_true] at hk2
          simp only [hk2]
          simpa using hs

/-- Processing a prefix of the rule list to success lets the remainder be
processed from the intermediate parts, with the fuel decreased by the
prefix length. -/
theorem processRules_append (ctx : Ctx) (m : TemplateModel) :
    ∀ (l1 : List (String × TElement)) (fuel : Nat) (parts p2 : Parts)
      (l2 : List (String × TElement)),
      processRules ctx fuel l1 m parts = .ok p2 →
      l1.length + 1 ≤ fuel ∧
      processRules ctx fuel (l1 ++ l2) m parts =
        processRules ctx (fuel - l1.length) l2 m p2 := by
  intro l1
  induction l1 with
  | nil =>
    intro fuel parts p2 l2 h
    cases fuel with
    | zero => simp [processRules] at h
    | succ n =>
      rw [processRules] at h
      cases h
      exact ⟨Nat.succ_le_succ (Nat.zero_le n), by simp⟩
  | cons r0 rest ih =>
    intro fuel parts p2 l2 h
    obtain ⟨rn, e0⟩ := r0
    cases fuel with
    | zero => simp [processRules] at h
    | succ n =>
      rw [processRules] at h
      split at h
      · exact absurd h (by simp)
      · rename_i parts2 hpe
        obtain ⟨hlen, happ⟩ := ih n parts2 p2 l2 h
        refine ⟨by simp; omega, ?_⟩
        have harith : n + 1 - ((rn, e0) :: rest).length = n - rest.length := by
          simp
        rw [List.cons_append, processRules, hpe]
        dsimp only
        rw [happ, harith]

/-- **C2**: a binding whose field name is not declared on the enclosing
schema type makes compilation fail with the `TemplateException` that names
both the missing field and the model's fully-qualified name and carries
the field-name token's line and column: the offending element's processing
produces exactly that error, no compilation containing such a binding can
succeed, and when every earlier rule of the level processes successfully
the compilation's error is exactly that exception. -/
theorem claim_C2_undeclared_property_fails :
    ∀ (ctx : Ctx) (m : TemplateModel) (e : TElement) (tok : Token),
      isGetPropertyBinding e = true → elementFieldName e = some tok →
      m.getDeclaredProperty tok.value = none →
      (∀ (g : Nat) (parts : Parts) (rule : String), 2 ≤ g →
        processElement ctx g m parts rule e = .error (undeclaredPropertyError m tok)) ∧
      (undeclaredPropertyError m tok = .templateException
        ("Template references a property '" ++ tok.value ++
         "' that is not declared in the template model '" ++ m.fqn ++ "'")
        ⟨tok.line, tok.col, tok.line, tok.col + 1⟩ "text/grammar.tem.md") ∧
      (∀ (fuel : Nat) (ast : TAst) (pfx : String) (parts p' : Parts),
        some e ∈ ast → buildGrammarRules ctx fuel ast m pfx parts ≠ .ok p') ∧
      (∀ (fuel : Nat) (ast : TAst) (pfx : String) (parts partsMid : Parts)
          (pre suf : List (String × TElement)) (ruleName : String),
        mkRules pfx ast = pre ++ (ruleName, e) :: suf →
        processRules ctx fuel pre m
          { parts with textRules := parts.textRules ++ [mkTextRules pfx ast m ctx.uuid] } =
          .ok partsMid →
        pre.length + 3 ≤ fuel →
        buildGrammarRules ctx (fuel + 1) ast m pfx parts =
          .error (undeclaredPropertyError m tok)) := by
  intro ctx m e tok hb hf hnd
  refine ⟨fun g parts rule hg => processElement_undeclared ctx m parts rule e tok g hb hf hnd hg,
    rfl, ?_, ?_⟩
  · intro fuel ast pfx parts p' hm h
    cases fuel with
    | zero => simp [buildGrammarRules] at h
    | succ n =>
      rw [buildGrammarRules] at h
      obtain ⟨s, hs⟩ := mem_mkRules_of_mem pfx e
        (elementKept_of_getPropertyBinding e hb) ast 0 hm
      exact processRules_with_bad_never_ok ctx m e tok s hb hf hnd
        (mkRules pfx ast) n _ p' hs h
  · intro fuel ast pfx parts partsMid pre suf ruleName hsplit hpre hfuel
    rw [buildGrammarRules, hsplit]
    obtain ⟨hlen, happ⟩ := processRules_append ctx m pre fuel _ partsMid
      ((ruleName, e) :: suf) hpre
    rw [happ]
    obtain ⟨n2, hn2⟩ : ∃ n2, fuel - pre.length = n2 + 3 :=
      ⟨fuel - pre.length - 3, by omega⟩
    rw [hn2, processRules,
      processElement_undeclared ctx m partsMid ruleName e tok (n2 + 2) hb hf hnd (by omega)]

/-- **C2** witness: the claim applied to a binding of the undeclared
property `missing` at line 3, column 7. -/
theorem claim_C2_undeclared_property_fails_witness :
    (isGetPropertyBinding (.binding ⟨"missing", 3, 7⟩) = true) ∧
    (testModel.getDeclaredProperty "missing" = none) ∧
    processElement testCtx 2 testModel emptyParts "rule1" (.binding ⟨"missing", 3, 7⟩) =
      .error (undeclaredPropertyError testModel ⟨"missing", 3, 7⟩) ∧
    (∀ p', buildGrammarRules testCtx 9 testBadAst testModel "rule" emptyParts ≠ .ok p') :=
  ⟨rfl, rfl,
   (claim_C2_undeclared_property_fails testCtx testModel (.binding ⟨"missing", 3, 7⟩)
      ⟨"missing", 3, 7⟩ rfl rfl rfl).1 2 emptyParts "rule1" (by omega),
   fun p' => (claim_C2_undeclared_property_fails testCtx testModel
      (.binding ⟨"missing", 3, 7⟩) ⟨"missing", 3, 7⟩ rfl rfl rfl).2.2.1 9 testBadAst
      "rule" emptyParts p' (List.Mem.tail _ (List.Mem.head _))⟩

/-- **C7**: an `IfBinding`/`IfElseBinding` whose bound property exists but
is not `Boolean` fails with the boolean-only `TemplateException`; on a
`Boolean` property the optional-literal (resp. two-literal choice) rule is
emitted, and the emitted actions yield `true` exactly when the
true-literal was present (resp. matched). -/
theorem claim_C7_if_binding_boolean_check :
    (∀ (ctx : Ctx) (m : TemplateModel) (parts : Parts) (rule : String) (g : Nat)
        (f sIf sElse : Token) (property : SchemaProperty),
      m.getDeclaredProperty f.value = some property →
      (property.propType ≠ "Boolean" →
        processElement ctx (g + 1) m parts rule (.ifBinding f sIf) =
          .error (nonBooleanIfError f property) ∧
        processElement ctx (g + 1) m parts rule (.ifElseBinding f sIf sElse) =
          .error (nonBooleanIfError f property)) ∧
      (property.propType = "Boolean" →
        processElement ctx (g + 1) m parts rule (.ifBinding f sIf) =
          .ok (pushModelRule parts
            { pfx := rule, symbols := [ifBindingSymbol sIf.value f.value] }) ∧
        processElement ctx (g + 1) m parts rule (.ifElseBinding f sIf sElse) =
          .ok (pushModelRule parts
            { pfx := rule, symbols := [ifElseBindingSymbol sIf.value sElse.value f.value] }))) ∧
    (∀ (α : Type) (d : Option α), ifBindingActionDenote d = true ↔ d ≠ none) ∧
    (∀ s sIfv : String, ifElseBindingActionDenote s sIfv = true ↔ s = sIfv) := by
  refine ⟨?_, ?_, ?_⟩
  · intro ctx m parts rule g f sIf sElse property hprop
    have hsp : (" " : String).length = 1 := rfl
    have hemp : ("" : String).isEmpty = true := rfl
    constructor
    · intro hne
      constructor <;>
        simp [processElement, getPropertyOfElement, hprop, hne, nonBooleanIfError,
          throwTemplateExceptionForElement, elementValue, hsp, hemp]
    · intro heq
      constructor <;>
        simp [processElement, getPropertyOfElement, hprop, heq]
  · intro α d
    cases d <;> simp [ifBindingActionDenote]
  · intro s sIfv
    simp [ifElseBindingActionDenote]

/-- **C7** witness: an `IfBinding` on the `Double` property `amount` of
the test model fails with the boolean-only error, and the action
denotations at concrete inputs. -/
theorem claim_C7_if_binding_boolean_check_witness :
    (testModel.getDeclaredProperty "amount" = some
      { name := "amount", propType := "Double", fqTypeName := "Double",
        isArray := false, isOptional := false, isRelationship := false }) ∧
    (("Double" : String) ≠ "Boolean") ∧
    processElement testCtx 5 testModel emptyParts "rule0"
        (.ifBinding ⟨"amount", 2, 4⟩ ⟨"yes", 2, 10⟩) =
      .error (nonBooleanIfError ⟨"amount", 2, 4⟩
        { name := "amount", propType := "Double", fqTypeName := "Double",
          isArray := false, isOptional := false, isRelationship := false }) ∧
    (ifBindingActionDenote (some "yes") = true ↔ some "yes" ≠ none) :=
  ⟨rfl, by decide,
   ((claim_C7_if_binding_boolean_check.1 testCtx testModel emptyParts "rule0" 4
      ⟨"amount", 2, 4⟩ ⟨"yes", 2, 10⟩ ⟨"no", 2, 20⟩
      { name := "amount", propType := "Double", fqTypeName := "Double",
        isArray := false, isOptional := false, isRelationship := false } rfl).1
      (by decide)).1,
   claim_C7_if_binding_boolean_check.2.1 String (some "yes")⟩

/-- The three C4 conclusions, extracted from the decomposed success path
of a list binding in `handleBinding`. -/
theorem c4_conclusions (ctx : Ctx) (fuel : Nat) (e : TElement) (f : Token)
    (property : SchemaProperty) (inputRule : String)
    (parts partsA partsB p' : Parts) (firstTpl restTpl : TAst)
    (nestedModel : TemplateModel)
    (hlist : isListBindingElement e = true)
    (hb1 : buildGrammarRules ctx fuel firstTpl nestedModel (f.value ++ "First") parts = .ok partsA)
    (hb2 : buildGrammarRules ctx fuel restTpl nestedModel f.value partsA = .ok partsB)
    (hp' : p' = finishBinding partsB e inputRule f.value property f.value
      (some (f.value ++ "First")) (listBindingActionString f.value)) :
    p'.modelRules.getLast? = some
      { pfx := inputRule,
        symbols := [f.value ++ "First" ++ " " ++ f.value ++ suffixFor property ++ " " ++
          listBindingActionString f.value ++ " # " ++ f.value] } ∧
    (∃ t1 ∈ p'.textRules, t1.pfx = f.value ++ "First") ∧
    (∃ t2 ∈ p'.textRules, t2.pfx = f.value) := by
  subst hp'
  refine ⟨?_, ?_, ?_⟩
  · unfold finishBinding
    rw [if_pos hlist]
    unfold pushModelRule
    dsimp only
    rw [List.getLast?_concat]
    rfl
  · obtain ⟨r1, hr1⟩ := buildGrammarRules_textRules_structure ctx fuel firstTpl
      nestedModel (f.value ++ "First") parts partsA hb1
    have hmem : mkTextRules (f.value ++ "First") firstTpl nestedModel ctx.uuid ∈
        partsA.textRules := by
      rw [hr1]
      exact List.mem_append_right _ (List.mem_cons_self _ _)
    have hpre : partsA.textRules <+: partsB.textRules :=
      (compile_textRules_mono ctx fuel).1 _ _ _ _ _ hb2
    refine ⟨mkTextRules (f.value ++ "First") firstTpl nestedModel ctx.uuid, ?_, rfl⟩
    rw [finishBinding_textRules]
    exact hpre.subset hmem
  · obtain ⟨r2, hr2⟩ := buildGrammarRules_textRules_structure ctx fuel restTpl
      nestedModel f.value partsA partsB hb2
    refine ⟨mkTextRules f.value restTpl nestedModel ctx.uuid, ?_, rfl⟩
    rw [finishBinding_textRules, hr2]
    exact List.mem_append_right _ (List.mem_cons_self _ _)

/-- **C4**: for every list binding (`UListBinding`, `OListBinding`,
`JoinBinding`) over a non-`DateTime` property, a successful
`handleBinding` compiles a first-item sub-grammar named `{field}First` and
a rest sub-grammar named `{field}`, emits as the binding's rule the
sequence `{field}First {field}…` with the concatenating action, and the
action's denotation prepends the single first element to the rest list,
never reordering or duplicating (so `[a, b, c]` comes out as
`[a, b, c]`). -/
theorem claim_C4_list_binding_first_rest :
    (∀ (ctx : Ctx) (fuel : Nat) (m : TemplateModel) (parts : Parts) (inputRule : String)
        (e : TElement) (f : Token) (tpl : TAst) (property : SchemaProperty) (p' : Parts),
      (e = .uListBinding f tpl ∨ e = .oListBinding f tpl ∨
        ∃ sep, e = .joinBinding f sep tpl) →
      m.getDeclaredProperty f.value = some property →
      property.propType ≠ "DateTime" →
      handleBinding ctx (fuel + 1) m parts inputRule e = .ok p' →
      p'.modelRules.getLast? = some
        { pfx := inputRule,
          symbols := [f.value ++ "First" ++ " " ++ f.value ++ suffixFor property ++ " " ++
            listBindingActionString f.value ++ " # " ++ f.value] } ∧
      (∃ t1 ∈ p'.textRules, t1.pfx = f.value ++ "First") ∧
      (∃ t2 ∈ p'.textRules, t2.pfx = f.value)) ∧
    (∀ (α : Type) (a : α) (l : List α), listBindingActionDenote a l = a :: l) ∧
    (∀ (α : Type) (a b c : α), listBindingActionDenote a [b, c] = [a, b, c]) := by
  refine ⟨?_, ?_, ?_⟩
  · intro ctx fuel m parts inputRule e f tpl property p' hshape hprop hdt h
    rcases hshape with rfl | rfl | ⟨sep, rfl⟩
    · -- UListBinding
      rw [handleBinding] at h
      split at h
      · rename_i hfn
        simp [elementFieldName] at hfn
      · rename_i f2 hfn
        simp only [elementFieldName, Option.some.injEq] at hfn
        subst hfn
        split at h
        · rename_i err hge
          simp [getPropertyOfElement, hprop, elementValue] at hge
        · rename_i property2 hge
          simp only [getPropertyOfElement, hprop, elementValue] at hge
          obtain rfl := (Except.ok.inj hge)
          split at h
          · rename_i hcond
            exact absurd hcond (by simp [elementTypeName, hdt])
          · split at h
            · rename_i hcond
              exact absurd hcond (by simp [elementTypeName])
            · split at h
              · split at h
                · rename_i hte
                  simp [elementTemplate] at hte
                · rename_i tpl2 hte
                  simp only [elementTemplate, Option.some.injEq] at hte
                  subst hte
                  split at h
                  · exact absurd h (by simp)
                  · rename_i nestedModel hintro
                    dsimp only [listSeparator, elementTypeName] at h
                    rw [if_neg (by simp)] at h
                    split at h
                    · exact absurd h (by simp)
                    · rename_i firstTpl hadj1
                      split at h
                      · exact absurd h (by simp)
                      · rename_i partsA hb1
                        rw [if_neg (by simp)] at h
                        split at h
                        · exact absurd h (by simp)
                        · rename_i restTpl hadj2
                          split at h
                          · exact absurd h (by simp)
                          · rename_i partsB hb2
                            exact c4_conclusions ctx fuel (TElement.uListBinding f tpl) f
                              property inputRule parts partsA partsB p' firstTpl restTpl
                              nestedModel rfl hb1 hb2 (Except.ok.inj h).symm
              · rename_i hcond
                exact absurd (by simp [isListBindingElement] : isListBindingElement
                  (TElement.uListBinding f tpl) = true) hcond
    · -- OListBinding
      rw [handleBinding] at h
      split at h
      · rename_i hfn
        simp [elementFieldName] at hfn
      · rename_i f2 hfn
        simp only [elementFieldName, Option.some.injEq] at hfn
        subst hfn
        split at h
        · rename_i err hge
          simp [getPropertyOfElement, hprop, elementValue] at hge
        · rename_i property2 hge
          simp only [getPropertyOfElement, hprop, elementValue] at hge
          obtain rfl := (Except.ok.inj hge)
          split at h
          · rename_i hcond
            exact absurd hcond (by simp [elementTypeName, hdt])
          · split at h
            · rename_i hcond
              exact absurd hcond (by simp [elementTypeName])
            · split at h
              · split at h
                · rename_i hte
                  simp [elementTemplate] at hte
                · rename_i tpl2 hte
                  simp only [elementTemplate, Option.some.injEq] at hte
                  subst hte
                  split at h
                  · exact absurd h (by simp)
                  · rename_i nestedModel hintro
                    dsimp only [listSeparator, elementTypeName] at h
                    rw [if_neg (by simp)] at h
                    split at h
                    · exact absurd h (by simp)
                    · rename_i firstTpl hadj1
                      split at h
                      · exact absurd h (by simp)
                      · rename_i partsA hb1
                        rw [if_neg (by simp)] at h
                        split at h
                        · exact absurd h (by simp)
                        · rename_i restTpl hadj2
                          split at h
                          · exact absurd h (by simp)
                          · rename_i partsB hb2
                            exact c4_conclusions ctx fuel (TElement.oListBinding f tpl) f
                              property inputRule parts partsA partsB p' firstTpl restTpl
                              nestedModel rfl hb1 hb2 (Except.ok.inj h).symm
              · rename_i hcond
                exact absurd (by simp [isListBindingElement] : isListBindingElement
                  (TElement.oListBinding f tpl) = true) hcond
    · -- JoinBinding
      rw [handleBinding] at h
      split at h
      · rename_i hfn
        simp [elementFieldName] at hfn
      · rename_i f2 hfn
        simp only [elementFieldName, Option.some.injEq] at hfn
        subst hfn
        split at h
        · rename_i err hge
          simp [getPropertyOfElement, hprop, elementValue] at hge
        · rename_i property2 hge
          simp only [getPropertyOfElement, hprop, elementValue] at hge
          obtain rfl := (Except.ok.inj hge)
          split at h
          · rename_i hcond
            exact absurd hcond (by simp [elementTypeName, hdt])
          · split at h
            · rename_i hcond
              exact absurd hcond (by simp [elementTypeName])
            · split at h
              · split at h
                · rename_i hte
                  simp [elementTemplate] at hte
                · rename_i tpl2 hte
                  simp only [elementTemplate, Option.some.injEq] at hte
                  subst hte
                  split at h
                  · exact absurd h (by simp)
                  · rename_i nestedModel hintro
                    dsimp only [listSeparator, elementTypeName] at h
                    rw [if_pos (by simp)] at h
                    split at h
                    · exact absurd h (by simp)
                    · rename_i firstTpl hfeq
                      split at h
                      · exact absurd h (by simp)
                      · rename_i partsA hb1
                        rw [if_pos (by simp)] at h
                        split at h
                        · exact absurd h (by simp)
                        · rename_i restTpl hadj2
                          split at h
                          · exact absurd h (by simp)
                          · rename_i partsB hb2
                            exact c4_conclusions ctx fuel (TElement.joinBinding f sep tpl)
                              f property inputRule parts partsA partsB p' firstTpl restTpl
                              nestedModel rfl hb1 hb2 (Except.ok.inj h).symm
              · rename_i hcond
                exact absurd (by simp [isListBindingElement] : isListBindingElement
                  (TElement.joinBinding f sep tpl) = true) hcond
  · intro α a l
    simp [listBindingActionDenote]
  · intro α a b c
    simp [listBindingActionDenote]

/-- **C4** witness: the unordered-list binding `items` over the nested
template `"x " label` compiles to the `itemsFirst`/`items` pair and the
sequencing rule, and the action denotation keeps `[a, b, c]` in order. -/
theorem claim_C4_list_binding_first_rest_witness :
    (handleBinding testListCtx 9 testListModel emptyParts "rule1" testListElement =
      .ok testListCompiledParts) ∧
    (testListCompiledParts.modelRules.getLast? = some
      { pfx := "rule1",
        symbols := ["items" ++ "First" ++ " " ++ "items" ++ suffixFor testItemsProperty ++
          " " ++ listBindingActionString "items" ++ " # " ++ "items"] } ∧
      (∃ t1 ∈ testListCompiledParts.textRules, t1.pfx = "items" ++ "First") ∧
      (∃ t2 ∈ testListCompiledParts.textRules, t2.pfx = "items")) ∧
    listBindingActionDenote 1 [2, 3] = [1, 2, 3] :=
  ⟨rfl,
   claim_C4_list_binding_first_rest.1 testListCtx 8 testListModel emptyParts "rule1"
     testListElement ⟨"items", 2, 1⟩ [some (.chunk "x "), some (.binding ⟨"label", 2, 5⟩)]
     testItemsProperty testListCompiledParts (Or.inl rfl) rfl (by decide) rfl,
   claim_C4_list_binding_first_rest.2.2 Nat 1 2 3⟩

/-- **C10** witness: the equal-data-JSON conjunct applied at concrete
values. -/
theorem claim_C10_get_identifier_witness :
    (toString (42 : Nat) = toString (42 : Nat)) ∧
    TemplateInstance.getIdentifier (fun s => s ++ "#") toString "tpl@0.0.1" (some (42 : Nat)) =
      TemplateInstance.getIdentifier (fun s => s ++ "#") toString "tpl@0.0.1" (some 42) :=
  ⟨rfl, (claim_C10_get_identifier Nat (fun s => s ++ "#") toString "tpl@0.0.1").2.2 42 42 rfl⟩

/-- Running calls none of which is a successful `setGrammar`/`buildGrammar`
leaves `grammarAst` unset. -/
theorem runPMOps_no_successful_set {G : Type} (compileGrammar : String → Except String G)
    (combine : String → Except String String) :
    ∀ (ops : List PMOp) (stc : PMGrammarState G × Nat),
      (∀ op ∈ ops, pmOpSetsGrammar compileGrammar combine op = false) →
      (stc.1).grammarAst = none →
      ((runPMOps compileGrammar combine ops stc).1).grammarAst = none := by
  intro ops
  induction ops with
  | nil =>
    intro stc hops hnone
    exact hnone
  | cons op rest ih =>
    intro stc hops hnone
    have hop := hops op (List.mem_cons_self op rest)
    have hrest : ∀ op2 ∈ rest, pmOpSetsGrammar compileGrammar combine op2 = false :=
      fun op2 hm => hops op2 (List.mem_cons_of_mem op hm)
    show ((runPMOps compileGrammar combine rest
      (applyPMOp compileGrammar combine stc op)).1).grammarAst = none
    refine ih _ hrest ?_
    obtain ⟨st, alloc⟩ := stc
    cases op with
    | setGrammarCall g =>
      simp only [pmOpSetsGrammar] at hop
      cases hc : compileGrammar g with
      | ok ast => rw [hc] at hop; simp [Except.isOk, Except.toBool] at hop
      | error e =>
        simp only [applyPMOp, ParserManager.setGrammar, hc]
        exact hnone
    | buildGrammarCall tg =>
      simp only [pmOpSetsGrammar] at hop
      cases hcb : combine tg with
      | error e =>
        simp only [applyPMOp, ParserManager.buildGrammarState, hcb]
        exact hnone
      | ok combined =>
        rw [hcb] at hop
        dsimp only at hop
        cases hc : compileGrammar combined with
        | ok ast => rw [hc] at hop; simp [Except.isOk, Except.toBool] at hop
        | error e =>
          simp only [applyPMOp, ParserManager.buildGrammarState, hcb,
            ParserManager.setGrammar, hc]
          exact hnone
    | getParserCall =>
      simp only [applyPMOp, ParserManager.getParser]
      cases hga : st.grammarAst with
      | none => exact hnone
      | some ast => rw [hga] at hnone; cases hnone

/-- **C6**: `getParser` throws the illegal-state error exactly while no
`setGrammar`/`buildGrammar` has ever succeeded (the constructor leaves the
grammar unset and unsuccessful calls do not set it), and once a grammar
has been compiled every `getParser` call returns a freshly constructed
parser — a new instance per call — bound to the compiled grammar. -/
theorem claim_C6_get_parser_state_machine :
    (∀ (G : Type) (st : PMGrammarState G) (alloc : Nat), st.grammarAst = none →
      ParserManager.getParser st alloc =
        .error "Must call setGrammar or buildGrammar before calling getParser") ∧
    (∀ (G : Type) (compileGrammar : String → Except String G)
        (combine : String → Except String String) (ops : List PMOp),
      (∀ op ∈ ops, pmOpSetsGrammar compileGrammar combine op = false) →
      ((runPMOps compileGrammar combine ops (ParserManager.initialState, 0)).1).grammarAst =
        none) ∧
    (∀ (G : Type) (st : PMGrammarState G) (ast : G) (alloc : Nat),
      st.grammarAst = some ast →
      ParserManager.getParser st alloc = .ok (⟨alloc, ast⟩, alloc + 1) ∧
      ∃ p1 a1 p2 a2, ParserManager.getParser st alloc = .ok (p1, a1) ∧
        ParserManager.getParser st a1 = .ok (p2, a2) ∧
        p1.instanceId ≠ p2.instanceId ∧
        p1.compiledGrammar = ast ∧ p2.compiledGrammar = ast) ∧
    (∀ (G : Type) (compileGrammar : String → Except String G)
        (st st2 : PMGrammarState G) (g : String),
      ParserManager.setGrammar compileGrammar st g = .ok st2 →
      ∃ ast, st2.grammarAst = some ast) := by
  refine ⟨?_, ?_, ?_, ?_⟩
  · intro G st alloc hnone
    simp [ParserManager.getParser, hnone]
  · intro G compileGrammar combine ops hops
    exact runPMOps_no_successful_set compileGrammar combine ops
      (ParserManager.initialState, 0) hops rfl
  · intro G st ast alloc hsome
    refine ⟨by simp [ParserManager.getParser, hsome], ?_⟩
    refine ⟨⟨alloc, ast⟩, alloc + 1, ⟨alloc + 1, ast⟩, alloc + 2,
      by simp [ParserManager.getParser, hsome], by simp [ParserManager.getParser, hsome],
      by show alloc ≠ alloc + 1; omega, rfl, rfl⟩
  · intro G compileGrammar st st2 g h
    unfold ParserManager.setGrammar at h
    cases hc : compileGrammar g with
    | error e => rw [hc] at h; cases h
    | ok ast =>
      rw [hc] at h
      cases h
      exact ⟨ast, rfl⟩

/-- **C6** witness: a fresh manager (after a failed `setGrammar`) still
throws the illegal-state error, and a compiled manager hands out fresh
parsers. -/
theorem claim_C6_get_parser_state_machine_witness :
    (∀ op ∈ [PMOp.setGrammarCall "bad", PMOp.getParserCall],
      pmOpSetsGrammar (fun _ => (.error "syntax" : Except String String))
        (fun s => .ok s) op = false) ∧
    ParserManager.getParser
      ((runPMOps (fun _ => (.error "syntax" : Except String String)) (fun s => .ok s)
        [PMOp.setGrammarCall "bad", PMOp.getParserCall]
        (ParserManager.initialState, 0)).1) 0 =
      .error "Must call setGrammar or buildGrammar before calling getParser" ∧
    ParserManager.getParser (⟨some "g", some "compiled"⟩ : PMGrammarState String) 5 =
      .ok (⟨5, "compiled"⟩, 6) :=
  ⟨by decide,
   claim_C6_get_parser_state_machine.1 String _ 0
     (claim_C6_get_parser_state_machine.2.1 String (fun _ => .error "syntax")
       (fun s => .ok s) [PMOp.setGrammarCall "bad", PMOp.getParserCall] (by decide)),
   (claim_C6_get_parser_state_machine.2.2.1 String ⟨some "g", some "compiled"⟩
     "compiled" 5 rfl).1⟩

end Cicero
